import Mathlib

/-!
The class template `cm::auto_ptr` of `Source/cm_auto_ptr.hxx`.

A shallow embedding of the class template `cm::auto_ptr<X>` and its nested
`auto_ptr_ref<Y>`.

* A raw pointer is a natural number, `0` being the null pointer.
* An `auto_ptr` object is identified by its address (`Handle`); the value of its
  single data member `x_` is read from the store `World.x_`.  Member functions
  take the address of the object they are called on as their first argument
  `this`, so that aliasing between `this` and a reference parameter (as in
  `h = h`) is expressible.
* Every evaluation of a `delete` expression appends its operand to
  `World.trace`.  Deleting the null pointer has no effect in C++, so the
  objects actually destroyed are the non-null entries of the trace
  (`destroyed`).
* `World.live` lists the handles whose lifetime has begun (a constructor ran)
  and not yet ended (the destructor has not run).
* `operator*` is not modelled: it reads the referent, which is outside the
  state of the handle.
-/

namespace cm

/-- A raw pointer `X*`; `0` is the null pointer. -/
abbrev Ptr := Nat

/-- The null pointer (the literal `0` of the source). -/
def null : Ptr := 0

/-- The address of an `auto_ptr` object. -/
abbrev Handle := Nat

/-- The program state the class acts on. -/
structure World where
  /-- The data member `x_` of the handle at each address. -/
  x_ : Handle → Ptr
  /-- The handles that are alive. -/
  live : List Handle
  /-- The operands of the `delete` expressions evaluated so far, oldest first. -/
  trace : List Ptr

namespace World

/-- The state before anything happened. -/
def empty : World := ⟨fun _ => null, [], []⟩

/-- The assignment `this->x_ = v`. -/
def setX (w : World) (this : Handle) (v : Ptr) : World :=
  { w with x_ := fun k => if k = this then v else w.x_ k }

/-- The expression `delete p`. -/
def delete (w : World) (p : Ptr) : World :=
  { w with trace := w.trace ++ [p] }

/-- The lifetime of the handle at `this` begins. -/
def beginLife (w : World) (this : Handle) : World :=
  { w with live := this :: w.live }

/-- The lifetime of the handle at `this` ends. -/
def endLife (w : World) (this : Handle) : World :=
  { w with live := w.live.filter (fun k => k ≠ this) }

end World

/-- The objects destroyed so far: `delete` of the null pointer destroys nothing. -/
def destroyed (w : World) : List Ptr :=
  w.trace.filter (fun p => p ≠ null)

/-- An implicit pointer conversion `Y* → X*` between compatible element types.
It may adjust the address (a base subobject), and it maps the null pointer,
and only the null pointer, to the null pointer. -/
structure PtrConv where
  /-- The converted pointer. -/
  toFun : Ptr → Ptr
  /-- Only the null pointer converts to the null pointer. -/
  null_iff : ∀ p, toFun p = null ↔ p = null

namespace PtrConv

/-- The conversion `X* → X*`. -/
def same : PtrConv := ⟨fun p => p, fun _ => Iff.rfl⟩

/-- A conversion to a base subobject that lies `d` bytes into the object. -/
def offset (d : Nat) : PtrConv :=
  ⟨fun p => if p = null then null else p + d, by
    intro p
    unfold null
    by_cases h : p = 0
    · simp [h]
    · simp only [h, if_false, iff_false]
      exact Nat.ne_of_gt (Nat.lt_of_lt_of_le (Nat.pos_of_ne_zero h) (Nat.le_add_right p d))⟩

end PtrConv

/-- The nested `struct auto_ptr_ref`. -/
structure auto_ptr_ref where
  /-- The pointer in flight. -/
  p_ : Ptr
deriving DecidableEq, Repr

namespace auto_ptr

/-- Member `X* get() const`. -/
def get (this : Handle) (w : World) : Ptr :=
  w.x_ this

/-- Member `X* operator->() const`. -/
def operator_arrow (this : Handle) (w : World) : Ptr :=
  w.x_ this

/-- Member `X* release()`. -/
def release (this : Handle) (w : World) : Ptr × World :=
  let x := w.x_ this
  let w1 := w.setX this null
  (x, w1)

/-- Member `void reset(X* p = 0)`. -/
def reset (this : Handle) (p : Ptr) (w : World) : World :=
  if w.x_ this ≠ p then
    let w1 := w.delete (w.x_ this)
    w1.setX this p
  else
    w

/-- Call `reset()` with the default argument. -/
def reset_default (this : Handle) (w : World) : World :=
  reset this null w

/-- Member `explicit auto_ptr(X* p = 0)`. -/
def ctor_from_raw (this : Handle) (p : Ptr) (w : World) : World :=
  (w.setX this p).beginLife this

/-- Constructor `auto_ptr()`: the raw-pointer constructor with the default argument. -/
def ctor_default (this : Handle) (w : World) : World :=
  ctor_from_raw this null w

/-- Member `auto_ptr(auto_ptr& a)`. -/
def ctor_copy (this a : Handle) (w : World) : World :=
  let r := release a w
  (r.2.setX this r.1).beginLife this

/-- Member `template <class Y> auto_ptr(auto_ptr<Y>& a)`. -/
def ctor_convert (c : PtrConv) (this a : Handle) (w : World) : World :=
  let r := release a w
  (r.2.setX this (c.toFun r.1)).beginLife this

/-- Member `auto_ptr& operator=(auto_ptr& a)`; the result is `*this`. -/
def operator_assign (this a : Handle) (w : World) : Handle × World :=
  let r := release a w
  (this, reset this r.1 r.2)

/-- Member `template <class Y> auto_ptr& operator=(auto_ptr<Y>& a)`. -/
def operator_assign_convert (c : PtrConv) (this a : Handle) (w : World) :
    Handle × World :=
  let r := release a w
  (this, reset this (c.toFun r.1) r.2)

/-- Member `~auto_ptr()`. -/
def dtor (this : Handle) (w : World) : World :=
  (w.delete (w.x_ this)).endLife this

/-- Member `template <class Y> operator auto_ptr<Y>()`; the returned handle is
constructed at `ret`. -/
def operator_auto_ptr (c : PtrConv) (this ret : Handle) (w : World) :
    Handle × World :=
  let r := release this w
  (ret, ctor_from_raw ret (c.toFun r.1) r.2)

/-- Member `auto_ptr(auto_ptr_ref<X> r)`. -/
def ctor_from_ref (this : Handle) (r : auto_ptr_ref) (w : World) : World :=
  (w.setX this r.p_).beginLife this

/-- Member `auto_ptr& operator=(auto_ptr_ref<X> r)`. -/
def operator_assign_ref (this : Handle) (r : auto_ptr_ref) (w : World) :
    Handle × World :=
  (this, reset this r.p_ w)

/-- Member `template <class Y> operator auto_ptr_ref<Y>()`. -/
def operator_auto_ptr_ref (c : PtrConv) (this : Handle) (w : World) :
    auto_ptr_ref × World :=
  let r := release this w
  (⟨c.toFun r.1⟩, r.2)

end auto_ptr

/-- One call of a public member of the class, with its arguments. -/
inductive Op where
  | ctor_from_raw (this : Handle) (p : Ptr)
  | ctor_copy (this a : Handle)
  | ctor_convert (c : PtrConv) (this a : Handle)
  | ctor_from_ref (this : Handle) (r : auto_ptr_ref)
  | operator_assign (this a : Handle)
  | operator_assign_convert (c : PtrConv) (this a : Handle)
  | operator_assign_ref (this : Handle) (r : auto_ptr_ref)
  | dtor (this : Handle)
  | get (this : Handle)
  | operator_arrow (this : Handle)
  | release (this : Handle)
  | reset (this : Handle) (p : Ptr)
  | operator_auto_ptr (c : PtrConv) (this ret : Handle)
  | operator_auto_ptr_ref (c : PtrConv) (this : Handle)

namespace Op

/-- The state after the call; the value the call returns is dropped. -/
def step : Op → World → World
  | ctor_from_raw this p, w => auto_ptr.ctor_from_raw this p w
  | ctor_copy this a, w => auto_ptr.ctor_copy this a w
  | ctor_convert c this a, w => auto_ptr.ctor_convert c this a w
  | ctor_from_ref this r, w => auto_ptr.ctor_from_ref this r w
  | operator_assign this a, w => (auto_ptr.operator_assign this a w).2
  | operator_assign_convert c this a, w => (auto_ptr.operator_assign_convert c this a w).2
  | operator_assign_ref this r, w => (auto_ptr.operator_assign_ref this r w).2
  | dtor this, w => auto_ptr.dtor this w
  | get _, w => w
  | operator_arrow _, w => w
  | release this, w => (auto_ptr.release this w).2
  | reset this p, w => auto_ptr.reset this p w
  | operator_auto_ptr c this ret, w => (auto_ptr.operator_auto_ptr c this ret w).2
  | operator_auto_ptr_ref c this, w => (auto_ptr.operator_auto_ptr_ref c this w).2

/-- The call is well formed in `w`: a constructor runs on storage that holds no
live handle, every other member is called on a live handle, and a handle passed
by reference is live. -/
def ok (w : World) : Op → Bool
  | ctor_from_raw this _ => decide (this ∉ w.live)
  | ctor_copy this a => decide (this ∉ w.live) && decide (a ∈ w.live)
  | ctor_convert _ this a => decide (this ∉ w.live) && decide (a ∈ w.live)
  | ctor_from_ref this _ => decide (this ∉ w.live)
  | operator_assign this a => decide (this ∈ w.live) && decide (a ∈ w.live)
  | operator_assign_convert _ this a => decide (this ∈ w.live) && decide (a ∈ w.live)
  | operator_assign_ref this _ => decide (this ∈ w.live)
  | dtor this => decide (this ∈ w.live)
  | get this => decide (this ∈ w.live)
  | operator_arrow this => decide (this ∈ w.live)
  | release this => decide (this ∈ w.live)
  | reset this _ => decide (this ∈ w.live)
  | operator_auto_ptr _ this ret => decide (this ∈ w.live) && decide (ret ∉ w.live)
  | operator_auto_ptr_ref _ this => decide (this ∈ w.live)

/-- The handle and the argument of the call of `reset` the operation makes in
`w`, if it makes one: `reset` itself and the three assignment operators. -/
def resetCall (w : World) : Op → Option (Handle × Ptr)
  | reset this p => some (this, p)
  | operator_assign this a => some (this, w.x_ a)
  | operator_assign_convert c this a => some (this, c.toFun (w.x_ a))
  | operator_assign_ref this r => some (this, r.p_)
  | _ => none

/-- The operation is the destructor of the handle `h`. -/
def isDtorOf (h : Handle) : Op → Bool
  | dtor this => decide (this = h)
  | _ => false

/-- The operation is the destruction of `h`, or it resets `h` (directly or as
the body of an assignment to `h`) to a pointer other than `x`. -/
def destroysOrResets (h : Handle) (x : Ptr) (w : World) (op : Op) : Bool :=
  op.isDtorOf h ||
    (match op.resetCall w with
     | some (this, q) => decide (this = h) && decide (q ≠ x)
     | none => false)

end Op

/-- The state after running the operations in order. -/
def run : List Op → World → World
  | [], w => w
  | op :: ops, w => run ops (op.step w)

/-- Running `ops` from `w`, every step that destroys the object at `x` is the
destruction of `h` or a reset of `h` to a pointer other than `x`. -/
def destroyedOnlyBy (h : Handle) (x : Ptr) : List Op → World → Bool
  | [], _ => true
  | op :: ops, w =>
    (decide ((destroyed (op.step w)).count x = (destroyed w).count x)
        || op.destroysOrResets h x w)
      && destroyedOnlyBy h x ops (op.step w)

/-- The initialisation `auto_ptr<X> b(f())` from an rvalue handle `a`: `a` is
converted to an `auto_ptr_ref`, from which `b` is constructed. -/
def proxy_construct (c : PtrConv) (b a : Handle) (w : World) : World :=
  let r := auto_ptr.operator_auto_ptr_ref c a w
  auto_ptr.ctor_from_ref b r.1 r.2

/-- The assignment `b = f()` from an rvalue handle `a`: `a` is converted to an
`auto_ptr_ref`, which is assigned to `b`. -/
def proxy_assign (c : PtrConv) (b a : Handle) (w : World) : Handle × World :=
  let r := auto_ptr.operator_auto_ptr_ref c a w
  auto_ptr.operator_assign_ref b r.1 r.2

/-- Exclusive ownership: no two live handles hold pointers to the same object.
Here `obj p` names the object that the non-null pointer `p` points to or into,
so that a pointer and its conversion to a base type count as the same pointer;
with `obj p = p` this reads: no two live handles hold the same non-null
pointer. -/
def exclusive (obj : Ptr → Nat) (w : World) : Prop :=
  ∀ a ∈ w.live, ∀ b ∈ w.live, a ≠ b → w.x_ a ≠ null → w.x_ b ≠ null →
    obj (w.x_ a) ≠ obj (w.x_ b)

instance exclusive.decidable (obj : Ptr → Nat) (w : World) : Decidable (exclusive obj w) := by
  unfold exclusive
  infer_instance

namespace Op

/-- The pointer conversion the operation applies in `w`, if it applies one,
yields a pointer to the same object. -/
def keepsObject (obj : Ptr → Nat) (w : World) : Op → Bool
  | ctor_convert c _ a => decide (obj (c.toFun (w.x_ a)) = obj (w.x_ a))
  | operator_assign_convert c _ a => decide (obj (c.toFun (w.x_ a)) = obj (w.x_ a))
  | operator_auto_ptr c this _ => decide (obj (c.toFun (w.x_ this)) = obj (w.x_ this))
  | operator_auto_ptr_ref c this => decide (obj (c.toFun (w.x_ this)) = obj (w.x_ this))
  | _ => true

/-- The pointer the operation takes from outside the handles (a raw pointer, or
the pointer carried by a proxy) is null or is not held by any other live
handle. -/
def notHeld (obj : Ptr → Nat) (w : World) : Op → Bool
  | ctor_from_raw _ p =>
    decide (p = null ∨ ∀ k ∈ w.live, w.x_ k ≠ null → obj (w.x_ k) ≠ obj p)
  | ctor_from_ref _ r =>
    decide (r.p_ = null ∨ ∀ k ∈ w.live, w.x_ k ≠ null → obj (w.x_ k) ≠ obj r.p_)
  | reset this p =>
    decide (p = null ∨ ∀ k ∈ w.live, k ≠ this → w.x_ k ≠ null → obj (w.x_ k) ≠ obj p)
  | operator_assign_ref this r =>
    decide (r.p_ = null ∨
      ∀ k ∈ w.live, k ≠ this → w.x_ k ≠ null → obj (w.x_ k) ≠ obj r.p_)
  | _ => true

end Op

/-- The destructors of the handles in `l` run in order. -/
def destroyEach : List Handle → World → World
  | [], w => w
  | h :: l, w => destroyEach l (auto_ptr.dtor h w)

/-- Scope exit: every live handle is destroyed, the most recently constructed
first. -/
def scope_exit (w : World) : World :=
  destroyEach w.live w

namespace Op

/-- The non-null raw pointer the operation adopts from the caller. -/
def adopts : Op → List Ptr
  | ctor_from_raw _ p => if p = null then [] else [p]
  | reset _ p => if p = null then [] else [p]
  | _ => []

/-- The non-null pointer the operation hands back to the caller in `w`: the
result of `release()`, or the pointer left in a proxy that no handle consumes. -/
def handsBack (w : World) : Op → List Ptr
  | release this => if w.x_ this = null then [] else [w.x_ this]
  | operator_auto_ptr_ref c this =>
    if w.x_ this = null then [] else [c.toFun (w.x_ this)]
  | _ => []

/-- The raw pointer the operation adopts is null or points to an object not in
`used`.  A proxy is not taken from the caller: `auto_ptr_ref` is private to the
class, a proxy only arises from the conversion of a handle. -/
def freshIn (obj : Ptr → Nat) (used : List Nat) : Op → Bool
  | ctor_from_raw _ p => decide (p = null ∨ obj p ∉ used)
  | reset _ p => decide (p = null ∨ obj p ∉ used)
  | ctor_from_ref _ _ => false
  | operator_assign_ref _ _ => false
  | _ => true

end Op

/-- The raw pointers adopted by the operations, in order. -/
def adopted : List Op → List Ptr
  | [] => []
  | op :: ops => op.adopts ++ adopted ops

/-- The pointers handed back to the caller when the operations run from `w`. -/
def handedBack : List Op → World → List Ptr
  | [], _ => []
  | op :: ops, w => op.handsBack w ++ handedBack ops (op.step w)

/-- Running from `w`, every operation is well formed, converts pointers within
their object, and adopts only a raw pointer to an object not adopted before
(`used` lists the objects adopted so far). -/
def scopeOk (obj : Ptr → Nat) : List Op → World → List Nat → Bool
  | [], _, _ => true
  | op :: ops, w, used =>
    op.ok w && op.keepsObject obj w && op.freshIn obj used
      && scopeOk obj ops (op.step w) (op.adopts.map obj ++ used)

/-- One if `p` is a non-null pointer to the object `o`, zero otherwise. -/
def pointsTo (obj : Ptr → Nat) (o : Nat) (p : Ptr) : Nat :=
  if p ≠ null ∧ obj p = o then 1 else 0

/-- The number of live handles that hold a pointer to the object `o`. -/
def holders (obj : Ptr → Nat) (o : Nat) (w : World) : Nat :=
  (w.live.map (fun k => pointsTo obj o (w.x_ k))).sum

/-- Every object adopted so far (`used`) is accounted for exactly once: a live
handle holds it, or it was destroyed, or it was handed back (`out`). -/
def accounted (obj : Ptr → Nat) (w : World) (out : List Ptr) (used : List Nat) : Prop :=
  w.live.Nodup ∧ used.Nodup ∧
    ∀ o, holders obj o w + ((destroyed w).map obj).count o + (out.map obj).count o
      = used.count o

/-! ## Helper lemmas -/

open auto_ptr

theorem destroyed_append (w : World) (p : Ptr) :
    destroyed (w.delete p) = destroyed w ++ (if p ≠ null then [p] else []) := by
  unfold destroyed World.delete
  by_cases h : p = null <;> simp [List.filter_append, h]

theorem destroyed_congr {v w : World} (h : v.trace = w.trace) :
    destroyed v = destroyed w := by
  unfold destroyed
  rw [h]

/-- Only a `delete` of `x` itself changes how often a non-null `x` was destroyed. -/
theorem count_destroyed_of_trace (v w : World) (p x : Ptr) (hx : x ≠ null)
    (h : v.trace = w.trace ++ [p]) :
    (destroyed v).count x = (destroyed w).count x + (if p = x then 1 else 0) := by
  unfold destroyed
  rw [h, List.filter_append, List.count_append]
  by_cases hp : p = x
  · subst hp
    simp [hx]
  · have hp2 : ¬ x = p := fun e => hp e.symm
    have hx2 : ¬ null = x := fun e => hx e.symm
    by_cases h0 : p = null
    · simp [hp, h0, hx2]
    · simp [hp, hp2, h0, List.count_cons]

/-- The trace after `reset`. -/
theorem reset_trace (this : Handle) (p : Ptr) (w : World) :
    (reset this p w).trace = if w.x_ this ≠ p then w.trace ++ [w.x_ this] else w.trace := by
  unfold reset
  by_cases h : w.x_ this = p <;> simp [h, World.setX, World.delete]

/-- If `reset` destroys the non-null `x`, the handle held `x` and is reset to
another pointer. -/
theorem reset_destroys (this : Handle) (p x : Ptr) (w : World) (hx : x ≠ null)
    (hc : (destroyed (reset this p w)).count x ≠ (destroyed w).count x) :
    w.x_ this = x ∧ p ≠ x := by
  by_cases h : w.x_ this = p
  · exact absurd (by simp [reset, h]) hc
  · have ht : (reset this p w).trace = w.trace ++ [w.x_ this] := by
      rw [reset_trace]; simp [h]
    rw [count_destroyed_of_trace _ w _ x hx ht] at hc
    by_cases hx2 : w.x_ this = x
    · exact ⟨hx2, fun e => h (hx2.trans e.symm)⟩
    · simp [hx2] at hc

/-! ## The claims -/

/-- C1 (destructive copy).  If the handle `a` holds `p` (non-null or not), then
constructing a new handle `b` from `a` with the same-type copy constructor
leaves `b.get() == p` and `a.get() == null`, and evaluates no `delete`. -/
theorem C1_destructive_copy (w : World) (a b : Handle) (p : Ptr)
    (hab : b ≠ a) (hp : get a w = p) :
    get b (ctor_copy b a w) = p ∧ get a (ctor_copy b a w) = null ∧
      (ctor_copy b a w).trace = w.trace ∧
      destroyed (ctor_copy b a w) = destroyed w := by
  have hab2 : a ≠ b := fun h => hab h.symm
  subst hp
  simp [auto_ptr.get, ctor_copy, release, World.setX, World.beginLife, destroyed, hab2]

/-- Witness of C1: `a` at address 1 holds the pointer 7, `b` is built at address 2. -/
theorem C1_destructive_copy_witness :
    get 2 (ctor_copy 2 1 (ctor_from_raw 1 7 World.empty)) = 7 ∧
      get 1 (ctor_copy 2 1 (ctor_from_raw 1 7 World.empty)) = null ∧
      (ctor_copy 2 1 (ctor_from_raw 1 7 World.empty)).trace = World.empty.trace ∧
      destroyed (ctor_copy 2 1 (ctor_from_raw 1 7 World.empty)) = destroyed World.empty :=
  C1_destructive_copy (ctor_from_raw 1 7 World.empty) 1 2 7 (by decide) (by decide)

/-- C2 (destructive assign).  For distinct handles `a` (holding `p`) and `b`
(holding `q`), `b = a` returns `*this`, leaves `b.get() == p` and
`a.get() == null`, and destroys exactly the object at `q` when `q` is non-null
and different from `p`, and nothing otherwise. -/
theorem C2_destructive_assign (w : World) (a b : Handle) (p q : Ptr)
    (hab : a ≠ b) (hp : get a w = p) (hq : get b w = q) :
    (operator_assign b a w).1 = b ∧
      get b (operator_assign b a w).2 = p ∧
      get a (operator_assign b a w).2 = null ∧
      destroyed (operator_assign b a w).2
        = destroyed w ++ (if q ≠ null ∧ q ≠ p then [q] else []) := by
  have hba : b ≠ a := fun h => hab h.symm
  subst hp hq
  by_cases hne : w.x_ b = w.x_ a
  · simp [auto_ptr.get, operator_assign, release, reset, World.setX, destroyed, hab, hba, hne]
  · by_cases h0 : w.x_ b = null
    · have h1 : ¬ null = w.x_ a := fun e => hne (h0.trans e)
      simp [auto_ptr.get, operator_assign, release, reset, World.setX, World.delete, destroyed,
        hab, hba, h0, h1, List.filter_append]
    · simp [auto_ptr.get, operator_assign, release, reset, World.setX, World.delete, destroyed,
        hab, hba, hne, h0, List.filter_append]

/-- Witness of C2: `a` at 1 holds 7, `b` at 2 holds 9, then `b = a`. -/
theorem C2_destructive_assign_witness :
    (operator_assign 2 1 (ctor_from_raw 2 9 (ctor_from_raw 1 7 World.empty))).1 = 2 ∧
      get 2 (operator_assign 2 1 (ctor_from_raw 2 9 (ctor_from_raw 1 7 World.empty))).2 = 7 ∧
      get 1 (operator_assign 2 1 (ctor_from_raw 2 9 (ctor_from_raw 1 7 World.empty))).2 = null ∧
      destroyed (operator_assign 2 1 (ctor_from_raw 2 9 (ctor_from_raw 1 7 World.empty))).2
        = destroyed (ctor_from_raw 2 9 (ctor_from_raw 1 7 World.empty))
            ++ (if (9 : Ptr) ≠ null ∧ (9 : Ptr) ≠ 7 then [9] else []) :=
  C2_destructive_assign (ctor_from_raw 2 9 (ctor_from_raw 1 7 World.empty)) 1 2 7 9
    (by decide) (by decide) (by decide)

/-- C3 (release).  For every handle `h`, `h.release()` returns the pointer `h`
held before the call, leaves `h.get() == null`, and evaluates no `delete`. -/
theorem C3_release (w : World) (h : Handle) :
    (release h w).1 = get h w ∧ get h (release h w).2 = null ∧
      (release h w).2.trace = w.trace ∧ destroyed (release h w).2 = destroyed w := by
  simp [auto_ptr.get, release, World.setX, destroyed]

/-- C4 (reset to a different pointer).  If `q != h.get()`, then `h.reset(q)`
evaluates `delete` exactly once, on the pointer `h` held before, so that the
prior referent (when `h` was holding) is destroyed exactly once, and leaves
`h.get() == q`. -/
theorem C4_reset_different (w : World) (h : Handle) (q : Ptr) (hq : q ≠ get h w) :
    get h (reset h q w) = q ∧
      (reset h q w).trace = w.trace ++ [get h w] ∧
      destroyed (reset h q w)
        = destroyed w ++ (if get h w ≠ null then [get h w] else []) := by
  have hne : w.x_ h ≠ q := fun e => hq e.symm
  have hr : reset h q w = (w.delete (w.x_ h)).setX h q := by
    simp [reset, hne]
  rw [hr]
  refine ⟨by simp [auto_ptr.get, World.setX], by simp [auto_ptr.get, World.setX, World.delete], ?_⟩
  have := destroyed_append w (w.x_ h)
  simpa [auto_ptr.get, destroyed, World.setX] using this

/-- Witness of C4: the handle at 1 holds 7 and is reset to 9. -/
theorem C4_reset_different_witness :
    get 1 (reset 1 9 (ctor_from_raw 1 7 World.empty)) = 9 ∧
      (reset 1 9 (ctor_from_raw 1 7 World.empty)).trace
        = (ctor_from_raw 1 7 World.empty).trace ++ [get 1 (ctor_from_raw 1 7 World.empty)] ∧
      destroyed (reset 1 9 (ctor_from_raw 1 7 World.empty))
        = destroyed (ctor_from_raw 1 7 World.empty)
            ++ (if get 1 (ctor_from_raw 1 7 World.empty) ≠ null
                then [get 1 (ctor_from_raw 1 7 World.empty)] else []) :=
  C4_reset_different (ctor_from_raw 1 7 World.empty) 1 9 (by decide)

/-- C5 (reset to the held pointer).  For every handle `h`, empty or holding,
`h.reset(h.get())` leaves the whole state unchanged: the handle keeps its
pointer and no `delete` is evaluated. -/
theorem C5_reset_equal_noop (w : World) (h : Handle) :
    reset h (get h w) w = w := by
  simp [reset, auto_ptr.get]

/-- C6 (self-assignment).  For every handle `h`, holding or empty, `h = h`
destroys no object and leaves `h.get()`, and the pointer of every other handle,
as before. -/
theorem C6_self_assign (w : World) (h : Handle) :
    get h (operator_assign h h w).2 = get h w ∧
      destroyed (operator_assign h h w).2 = destroyed w ∧
      (operator_assign h h w).2.x_ = w.x_ := by
  by_cases h0 : w.x_ h = null
  · refine ⟨?_, ?_, ?_⟩
    · simp [auto_ptr.get, operator_assign, release, reset, World.setX, h0]
    · simp [operator_assign, release, reset, World.setX, h0, destroyed]
    · funext k
      by_cases hk : k = h
      · simp [operator_assign, release, reset, World.setX, h0, hk]
      · simp [operator_assign, release, reset, World.setX, h0, hk]
  · have h1 : ¬ null = w.x_ h := fun e => h0 e.symm
    refine ⟨?_, ?_, ?_⟩
    · simp [auto_ptr.get, operator_assign, release, reset, World.setX, World.delete, h1]
    · simp [operator_assign, release, reset, World.setX, World.delete, h1, destroyed,
        List.filter_append]
    · funext k
      by_cases hk : k = h
      · simp [operator_assign, release, reset, World.setX, World.delete, h1, hk]
      · simp [operator_assign, release, reset, World.setX, World.delete, h1, hk]

/-- C7 (round trip through the proxy).  If `f` holds the non-null `p` and `g` is
a new handle, converting `f` to an `auto_ptr_ref` and constructing `g` from it
leaves `g.get() == p` and `f.get() == null` with no `delete` evaluated; the
destruction of `f` then destroys nothing, and destroying both handles, in
either order, destroys the object at `p` exactly once. -/
theorem C7_proxy_round_trip (w : World) (f g : Handle) (p : Ptr)
    (hfg : g ≠ f) (hp : get f w = p) (hnn : p ≠ null) :
    (operator_auto_ptr_ref PtrConv.same f w).1.p_ = p ∧
      (operator_auto_ptr_ref PtrConv.same f w).2.trace = w.trace ∧
      get g (ctor_from_ref g (operator_auto_ptr_ref PtrConv.same f w).1
        (operator_auto_ptr_ref PtrConv.same f w).2) = p ∧
      get f (ctor_from_ref g (operator_auto_ptr_ref PtrConv.same f w).1
        (operator_auto_ptr_ref PtrConv.same f w).2) = null ∧
      (ctor_from_ref g (operator_auto_ptr_ref PtrConv.same f w).1
        (operator_auto_ptr_ref PtrConv.same f w).2).trace = w.trace ∧
      destroyed (dtor f (ctor_from_ref g (operator_auto_ptr_ref PtrConv.same f w).1
        (operator_auto_ptr_ref PtrConv.same f w).2)) = destroyed w ∧
      destroyed (dtor g (dtor f (ctor_from_ref g (operator_auto_ptr_ref PtrConv.same f w).1
        (operator_auto_ptr_ref PtrConv.same f w).2))) = destroyed w ++ [p] ∧
      destroyed (dtor f (dtor g (ctor_from_ref g (operator_auto_ptr_ref PtrConv.same f w).1
        (operator_auto_ptr_ref PtrConv.same f w).2))) = destroyed w ++ [p] := by
  have hfg2 : f ≠ g := fun h => hfg h.symm
  subst hp
  have hnn2 : ¬ w.x_ f = null := hnn
  simp [auto_ptr.get, operator_auto_ptr_ref, ctor_from_ref, release, dtor, PtrConv.same,
    World.setX, World.beginLife, World.endLife, World.delete, destroyed, hfg, hfg2, hnn2,
    List.filter_append]

/-- Witness of C7: `f` at address 1 holds 7, `g` is built at address 2. -/
theorem C7_proxy_round_trip_witness :
    get 2 (ctor_from_ref 2
        (operator_auto_ptr_ref PtrConv.same 1 (ctor_from_raw 1 7 World.empty)).1
        (operator_auto_ptr_ref PtrConv.same 1 (ctor_from_raw 1 7 World.empty)).2) = 7 ∧
      destroyed (dtor 2 (dtor 1 (ctor_from_ref 2
        (operator_auto_ptr_ref PtrConv.same 1 (ctor_from_raw 1 7 World.empty)).1
        (operator_auto_ptr_ref PtrConv.same 1 (ctor_from_raw 1 7 World.empty)).2)))
        = destroyed (ctor_from_raw 1 7 World.empty) ++ [7] :=
  ⟨(C7_proxy_round_trip (ctor_from_raw 1 7 World.empty) 1 2 7
      (by decide) (by decide) (by decide)).2.2.1,
   (C7_proxy_round_trip (ctor_from_raw 1 7 World.empty) 1 2 7
      (by decide) (by decide) (by decide)).2.2.2.2.2.2.1⟩

/-- C8 (scoped release).  If `h` holds the non-null `p`, destroying `h`
evaluates `delete` exactly once, on `p`: the object at `p` is destroyed exactly
once and nothing else is. -/
theorem C8_scoped_release (w : World) (h : Handle) (p : Ptr)
    (hp : get h w = p) (hnn : p ≠ null) :
    (dtor h w).trace = w.trace ++ [p] ∧ destroyed (dtor h w) = destroyed w ++ [p] := by
  subst hp
  have hnn2 : ¬ w.x_ h = null := hnn
  simp [auto_ptr.get, dtor, World.endLife, World.delete, destroyed, hnn2, List.filter_append]

/-- Witness of C8: the handle at address 1 holds 7 and is destroyed. -/
theorem C8_scoped_release_witness :
    (dtor 1 (ctor_from_raw 1 7 World.empty)).trace = (ctor_from_raw 1 7 World.empty).trace ++ [7] ∧
      destroyed (dtor 1 (ctor_from_raw 1 7 World.empty))
        = destroyed (ctor_from_raw 1 7 World.empty) ++ [7] :=
  C8_scoped_release (ctor_from_raw 1 7 World.empty) 1 7 (by decide) (by decide)

/-- C9 (adoption), as amended.  Constructing `h` from any raw pointer `x`, the
default null included, yields `h.get() == x` and evaluates no `delete`.  In
every later state `v` in which `h` still holds the non-null `x` and no other
live handle holds it, a well-formed operation that destroys the object at `x`
is the destruction of `h` or a reset of `h`, directly or through an assignment
to `h`, to a pointer other than `x`. -/
theorem C9_adoption (w : World) (h : Handle) (x : Ptr) :
    get h (ctor_from_raw h x w) = x ∧
      get h (ctor_default h w) = null ∧
      (ctor_from_raw h x w).trace = w.trace ∧
      (ctor_default h w).trace = w.trace ∧
      (∀ (v : World) (op : Op), get h v = x → x ≠ null →
        (∀ k ∈ v.live, k ≠ h → v.x_ k ≠ x) → op.ok v = true →
        (destroyed (op.step v)).count x ≠ (destroyed v).count x →
        op.destroysOrResets h x v = true) := by
  refine ⟨by simp [auto_ptr.get, ctor_from_raw, World.setX, World.beginLife],
    by simp [auto_ptr.get, ctor_default, ctor_from_raw, World.setX, World.beginLife],
    by simp [ctor_from_raw, World.setX, World.beginLife],
    by simp [ctor_default, ctor_from_raw, World.setX, World.beginLife], ?_⟩
  intro v op hv hx hex hok hc
  have same : ∀ u : World, u.trace = v.trace → (destroyed u).count x = (destroyed v).count x :=
    fun u e => by rw [destroyed_congr e]
  have hvx : v.x_ h = x := hv
  cases op with
  | ctor_from_raw this p =>
    exact absurd (same _ (by simp [Op.step, ctor_from_raw, World.setX, World.beginLife])) hc
  | ctor_copy this a =>
    exact absurd (same _ (by simp [Op.step, ctor_copy, release, World.setX, World.beginLife])) hc
  | ctor_convert c this a =>
    exact absurd (same _ (by simp [Op.step, ctor_convert, release, World.setX, World.beginLife])) hc
  | ctor_from_ref this r =>
    exact absurd (same _ (by simp [Op.step, ctor_from_ref, World.setX, World.beginLife])) hc
  | get this => exact absurd (same _ (by simp [Op.step])) hc
  | operator_arrow this => exact absurd (same _ (by simp [Op.step])) hc
  | release this =>
    exact absurd (same _ (by simp [Op.step, release, World.setX])) hc
  | operator_auto_ptr c this ret =>
    exact absurd (same _ (by simp [Op.step, operator_auto_ptr, ctor_from_raw, release,
      World.setX, World.beginLife])) hc
  | operator_auto_ptr_ref c this =>
    exact absurd (same _ (by simp [Op.step, operator_auto_ptr_ref, release, World.setX])) hc
  | dtor this =>
    have hl : this ∈ v.live := by simpa [Op.ok] using hok
    by_cases ht : this = h
    · simp [Op.destroysOrResets, Op.isDtorOf, ht]
    · have ht2 : (dtor this v).trace = v.trace ++ [v.x_ this] := by
        simp [dtor, World.endLife, World.delete]
      have hne := hex this hl ht
      simp only [Op.step] at hc
      rw [count_destroyed_of_trace _ v _ x hx ht2] at hc
      simp [hne] at hc
  | reset this p =>
    have hl : this ∈ v.live := by simpa [Op.ok] using hok
    simp only [Op.step] at hc
    obtain ⟨h1, h2⟩ := reset_destroys this p x v hx hc
    have ht : this = h := by
      by_contra hn
      exact hex this hl hn h1
    simp [Op.destroysOrResets, Op.isDtorOf, Op.resetCall, ht, h2]
  | operator_assign this a =>
    have hl : this ∈ v.live := by
      have := hok
      simp [Op.ok] at this
      exact this.1
    simp only [Op.step, operator_assign] at hc
    have hc2 : (destroyed (reset this (v.x_ a) (release a v).2)).count x
        ≠ (destroyed (release a v).2).count x := by
      rw [same (release a v).2 (by simp [release, World.setX])]
      exact hc
    obtain ⟨h1, h2⟩ := reset_destroys this _ x _ hx hc2
    have hta : this ≠ a := by
      intro e
      simp [release, World.setX, e] at h1
      exact hx h1.symm
    have h3 : v.x_ this = x := by simpa [release, World.setX, hta] using h1
    have ht : this = h := by
      by_contra hn
      exact hex this hl hn h3
    simp [Op.destroysOrResets, Op.isDtorOf, Op.resetCall, ht, h2]
  | operator_assign_convert c this a =>
    have hl : this ∈ v.live := by
      have := hok
      simp [Op.ok] at this
      exact this.1
    simp only [Op.step, operator_assign_convert] at hc
    have hc2 : (destroyed (reset this (c.toFun (v.x_ a)) (release a v).2)).count x
        ≠ (destroyed (release a v).2).count x := by
      rw [same (release a v).2 (by simp [release, World.setX])]
      exact hc
    obtain ⟨h1, h2⟩ := reset_destroys this _ x _ hx hc2
    have hta : this ≠ a := by
      intro e
      simp [release, World.setX, e] at h1
      exact hx h1.symm
    have h3 : v.x_ this = x := by simpa [release, World.setX, hta] using h1
    have ht : this = h := by
      by_contra hn
      exact hex this hl hn h3
    simp [Op.destroysOrResets, Op.isDtorOf, Op.resetCall, ht, h2]
  | operator_assign_ref this r =>
    have hl : this ∈ v.live := by simpa [Op.ok] using hok
    simp only [Op.step, operator_assign_ref] at hc
    obtain ⟨h1, h2⟩ := reset_destroys this _ x v hx hc
    have ht : this = h := by
      by_contra hn
      exact hex this hl hn h1
    simp [Op.destroysOrResets, Op.isDtorOf, Op.resetCall, ht, h2]

/-- Witness of C9: in the state right after `auto_ptr h(7)` at address 1, the
destructor of `h` destroys the object at 7, and it is the destruction of `h`. -/
theorem C9_adoption_witness :
    Op.destroysOrResets 1 7 (ctor_from_raw 1 7 World.empty) (Op.dtor 1) = true :=
  (C9_adoption World.empty 1 7).2.2.2.2 (ctor_from_raw 1 7 World.empty) (Op.dtor 1)
    (by decide) (by decide) (by decide) (by decide) (by decide)

/-- C9 as stated fails.  After `auto_ptr a(7); auto_ptr b(a);` the destruction
of `b` destroys the object at 7, although `a` is neither destroyed nor reset;
and after `auto_ptr a(7); auto_ptr b(7);` (a second handle built from the same
raw pointer) the destruction of `b` does so too.  All operations are well
formed. -/
theorem C9_adoption_counterexample :
    destroyedOnlyBy 1 7 [Op.ctor_copy 2 1, Op.dtor 2] (ctor_from_raw 1 7 World.empty) = false ∧
      destroyed (run [Op.ctor_copy 2 1, Op.dtor 2] (ctor_from_raw 1 7 World.empty)) = [7] ∧
      Op.ok (ctor_from_raw 1 7 World.empty) (Op.ctor_copy 2 1) = true ∧
      Op.ok (Op.step (Op.ctor_copy 2 1) (ctor_from_raw 1 7 World.empty)) (Op.dtor 2) = true ∧
      destroyedOnlyBy 1 7 [Op.ctor_from_raw 2 7, Op.dtor 2] (ctor_from_raw 1 7 World.empty)
        = false := by
  decide

/-- C10 (cross-type transfer).  If `pd` holds the non-null `p` and `c` is the
pointer conversion to the target type, then both the converting constructor of
a new handle `pb` and the conversion operator returning a new handle at `pb`
yield `pb.get() == c p`, leave `pd.get() == null` and evaluate no `delete`;
destroying `pb` afterwards destroys the object at `c p` exactly once. -/
theorem C10_cross_type_transfer (w : World) (c : PtrConv) (pd pb : Handle) (p : Ptr)
    (hne : pb ≠ pd) (hp : get pd w = p) (hnn : p ≠ null) :
    (get pb (ctor_convert c pb pd w) = c.toFun p ∧
      get pd (ctor_convert c pb pd w) = null ∧
      (ctor_convert c pb pd w).trace = w.trace ∧
      destroyed (dtor pb (ctor_convert c pb pd w)) = destroyed w ++ [c.toFun p]) ∧
    ((operator_auto_ptr c pd pb w).1 = pb ∧
      get pb (operator_auto_ptr c pd pb w).2 = c.toFun p ∧
      get pd (operator_auto_ptr c pd pb w).2 = null ∧
      (operator_auto_ptr c pd pb w).2.trace = w.trace ∧
      destroyed (dtor pb (operator_auto_ptr c pd pb w).2) = destroyed w ++ [c.toFun p]) := by
  have hne2 : pd ≠ pb := fun h => hne h.symm
  subst hp
  have hc : ¬ c.toFun (w.x_ pd) = null := fun e => hnn ((c.null_iff _).1 e)
  simp [auto_ptr.get, ctor_convert, operator_auto_ptr, ctor_from_raw, release, dtor,
    World.setX, World.beginLife, World.endLife, World.delete, destroyed, hne, hne2, hc,
    List.filter_append]

/-- Witness of C10: `pd` at address 1 holds 7, the base subobject lies 8 bytes
into the object, and `pb` is built at address 2. -/
theorem C10_cross_type_transfer_witness :
    get 2 (ctor_convert (PtrConv.offset 8) 2 1 (ctor_from_raw 1 7 World.empty)) = 15 ∧
      destroyed (dtor 2 (operator_auto_ptr (PtrConv.offset 8) 1 2
        (ctor_from_raw 1 7 World.empty)).2) = [15] :=
  ⟨(C10_cross_type_transfer (ctor_from_raw 1 7 World.empty) (PtrConv.offset 8) 1 2 7
      (by decide) (by decide) (by decide)).1.1,
   (C10_cross_type_transfer (ctor_from_raw 1 7 World.empty) (PtrConv.offset 8) 1 2 7
      (by decide) (by decide) (by decide)).2.2.2.2.2⟩

/-- C13 (no deletion after release).  If `a` holds `p`, then `a.release()`
returns `p` and leaves `a.get() == null` without evaluating a `delete`, and
destroying `a` afterwards destroys no object; more generally, destroying any
empty handle evaluates `delete` on the null pointer only and destroys no
object. -/
theorem C13_no_deletion_after_release (w : World) (a : Handle) (p : Ptr)
    (hp : get a w = p) :
    (release a w).1 = p ∧ get a (release a w).2 = null ∧
      (release a w).2.trace = w.trace ∧
      destroyed (dtor a (release a w).2) = destroyed w ∧
      (∀ v : World, get a v = null →
        (dtor a v).trace = v.trace ++ [null] ∧ destroyed (dtor a v) = destroyed v) := by
  subst hp
  refine ⟨by simp [auto_ptr.get, release], by simp [auto_ptr.get, release, World.setX],
    by simp [release, World.setX], ?_, ?_⟩
  · simp [dtor, release, World.setX, World.endLife, World.delete, destroyed,
      List.filter_append]
  · intro v hv
    have hv2 : v.x_ a = null := hv
    simp [dtor, World.endLife, World.delete, destroyed, List.filter_append, hv2]

/-- Witness of C13: the handle at address 1 holds 7, releases it and is destroyed. -/
theorem C13_no_deletion_after_release_witness :
    (release 1 (ctor_from_raw 1 7 World.empty)).1 = 7 ∧
      destroyed (dtor 1 (release 1 (ctor_from_raw 1 7 World.empty)).2) = [] :=
  ⟨(C13_no_deletion_after_release (ctor_from_raw 1 7 World.empty) 1 7 (by decide)).1,
   (C13_no_deletion_after_release (ctor_from_raw 1 7 World.empty) 1 7 (by decide)).2.2.2.1⟩

/-- C14 (mechanism of self-assignment), as amended.  In `h = h` the body is
`reset(release())`: `release` empties the handle before `reset` runs.  The
pointer passed to `reset` equals the pointer the handle holds on entry exactly
when `h` was empty, and then `reset` does nothing.  When `h` was holding `p`,
`reset` finds the null pointer in the handle and `p` as its argument, takes its
other branch, evaluates `delete` on the null pointer and stores `p` back. -/
theorem C14_self_assign_mechanism (w : World) (h : Handle) :
    (operator_assign h h w).2 = reset h (release h w).1 (release h w).2 ∧
      get h (release h w).2 = null ∧
      ((release h w).1 = get h (release h w).2 ↔ get h w = null) ∧
      (get h w = null →
        reset h (release h w).1 (release h w).2 = (release h w).2) ∧
      (get h w ≠ null →
        reset h (release h w).1 (release h w).2
          = (((release h w).2).delete null).setX h (get h w) ∧
        (operator_assign h h w).2.trace = w.trace ++ [null]) := by
  refine ⟨rfl, by simp [auto_ptr.get, release, World.setX],
    by simp [auto_ptr.get, release, World.setX], ?_, ?_⟩
  · intro h0
    have h1 : w.x_ h = null := h0
    simp [reset, release, World.setX, h1]
  · intro h0
    have h1 : ¬ null = w.x_ h := fun e => h0 e.symm
    simp [operator_assign, reset, release, auto_ptr.get, World.setX, World.delete, h1]

/-- Witness of C14: the handle at address 1 holds 7; `reset` runs its deleting
branch on the null pointer. -/
theorem C14_self_assign_mechanism_witness :
    (operator_assign 1 1 (ctor_from_raw 1 7 World.empty)).2.trace
      = (ctor_from_raw 1 7 World.empty).trace ++ [null] :=
  ((C14_self_assign_mechanism (ctor_from_raw 1 7 World.empty) 1).2.2.2.2 (by decide)).2

/-- C14 as stated fails for a holding handle.  With the handle at address 1
holding 7, the pointer passed to `reset` in `h = h` is 7 while the handle holds
the null pointer on entry; `reset` does not take its do-nothing branch: it
evaluates one `delete` (on the null pointer) and writes `x_`. -/
theorem C14_self_assign_mechanism_counterexample :
    (release 1 (ctor_from_raw 1 7 World.empty)).1 = 7 ∧
      get 1 (release 1 (ctor_from_raw 1 7 World.empty)).2 = null ∧
      (release 1 (ctor_from_raw 1 7 World.empty)).1
        ≠ get 1 (release 1 (ctor_from_raw 1 7 World.empty)).2 ∧
      (reset 1 (release 1 (ctor_from_raw 1 7 World.empty)).1
          (release 1 (ctor_from_raw 1 7 World.empty)).2).trace
        ≠ (release 1 (ctor_from_raw 1 7 World.empty)).2.trace ∧
      (operator_assign 1 1 (ctor_from_raw 1 7 World.empty)).2.trace = [null] := by
  decide

/-- C15 (the proxy path equals the direct path).  For every source handle `a`
and destination handle `b`, in any state, converting `a` to an `auto_ptr_ref`
and constructing (assigning) `b` from it gives the same state, delete trace
included, as the direct converting construction (assignment) of `b` from `a`,
and for the conversion `X* → X*` the same state as the copy constructor (the
copy assignment).  In the intermediate state `a` is already empty and the
proxy alone carries the pointer, no `delete` has been evaluated and no other
handle has changed, so `a` and `b` never both hold the referent. -/
theorem C15_proxy_equals_direct (w : World) (c : PtrConv) (a b : Handle) :
    proxy_construct c b a w = ctor_convert c b a w ∧
      proxy_construct PtrConv.same b a w = ctor_copy b a w ∧
      proxy_assign c b a w = operator_assign_convert c b a w ∧
      proxy_assign PtrConv.same b a w = operator_assign b a w ∧
      (operator_auto_ptr_ref c a w).1.p_ = c.toFun (get a w) ∧
      get a (operator_auto_ptr_ref c a w).2 = null ∧
      (operator_auto_ptr_ref c a w).2.trace = w.trace ∧
      (∀ k, k ≠ a → get k (operator_auto_ptr_ref c a w).2 = get k w) ∧
      (∀ p, p ≠ null →
        ¬ (get a (operator_auto_ptr_ref c a w).2 = p ∧
            get b (operator_auto_ptr_ref c a w).2 = p)) := by
  refine ⟨rfl, rfl, rfl, rfl, rfl, ?_, ?_, ?_, ?_⟩
  · simp [auto_ptr.get, operator_auto_ptr_ref, release, World.setX]
  · simp [operator_auto_ptr_ref, release, World.setX]
  · intro k hk
    simp [auto_ptr.get, operator_auto_ptr_ref, release, World.setX, hk]
  · intro p hp hh
    have h0 : get a (operator_auto_ptr_ref c a w).2 = null := by
      simp [auto_ptr.get, operator_auto_ptr_ref, release, World.setX]
    exact hp (hh.1.symm.trans h0)

/-- Witness of C15: `a` at address 1 holds 7, `b` at address 2 holds 9; after
the conversion of `a` to the proxy the two handles do not both hold 7. -/
theorem C15_proxy_equals_direct_witness :
    ¬ (get 1 (operator_auto_ptr_ref PtrConv.same 1
          (ctor_from_raw 2 9 (ctor_from_raw 1 7 World.empty))).2 = 7 ∧
        get 2 (operator_auto_ptr_ref PtrConv.same 1
          (ctor_from_raw 2 9 (ctor_from_raw 1 7 World.empty))).2 = 7) :=
  (C15_proxy_equals_direct (ctor_from_raw 2 9 (ctor_from_raw 1 7 World.empty))
    PtrConv.same 1 2).2.2.2.2.2.2.2.2 7 (by decide)

/-- C16 (a dropped proxy leaks).  If `h` holds the non-null `p`, converting `h`
to an `auto_ptr_ref` that is then discarded leaves `h` empty and evaluates no
`delete`; no handle other than `h` changes, so when no other live handle held
`p` before, no live handle holds it afterwards; and destroying `h` then, or in
any later state in which `h` is still empty, destroys no object. -/
theorem C16_dropped_proxy_leaks (w : World) (c : PtrConv) (h : Handle) (p : Ptr)
    (hp : get h w = p) (hnn : p ≠ null) :
    (operator_auto_ptr_ref c h w).1.p_ = c.toFun p ∧
      get h (operator_auto_ptr_ref c h w).2 = null ∧
      (operator_auto_ptr_ref c h w).2.trace = w.trace ∧
      (operator_auto_ptr_ref c h w).2.live = w.live ∧
      ((∀ k ∈ w.live, k ≠ h → w.x_ k ≠ p) →
        ∀ k ∈ (operator_auto_ptr_ref c h w).2.live,
          get k (operator_auto_ptr_ref c h w).2 ≠ p) ∧
      destroyed (dtor h (operator_auto_ptr_ref c h w).2) = destroyed w ∧
      (∀ v : World, get h v = null → destroyed (dtor h v) = destroyed v) := by
  subst hp
  refine ⟨rfl, by simp [auto_ptr.get, operator_auto_ptr_ref, release, World.setX],
    by simp [operator_auto_ptr_ref, release, World.setX],
    by simp [operator_auto_ptr_ref, release, World.setX], ?_, ?_, ?_⟩
  · intro hex k hk
    have hk2 : k ∈ w.live := by
      simpa [operator_auto_ptr_ref, release, World.setX] using hk
    by_cases hkh : k = h
    · subst hkh
      have : get k (operator_auto_ptr_ref c k w).2 = null := by
        simp [auto_ptr.get, operator_auto_ptr_ref, release, World.setX]
      rw [this]
      exact fun e => hnn e.symm
    · have : get k (operator_auto_ptr_ref c h w).2 = w.x_ k := by
        simp [auto_ptr.get, operator_auto_ptr_ref, release, World.setX, hkh]
      rw [this]
      exact hex k hk2 hkh
  · simp [dtor, operator_auto_ptr_ref, release, World.setX, World.endLife, World.delete,
      destroyed, List.filter_append]
  · intro v hv
    have hv2 : v.x_ h = null := hv
    simp [dtor, World.endLife, World.delete, destroyed, List.filter_append, hv2]

/-- Witness of C16: the handle at address 1 holds 7 and is converted to a
proxy that is dropped. -/
theorem C16_dropped_proxy_leaks_witness :
    get 1 (operator_auto_ptr_ref PtrConv.same 1 (ctor_from_raw 1 7 World.empty)).2 = null ∧
      destroyed (dtor 1 (operator_auto_ptr_ref PtrConv.same 1
        (ctor_from_raw 1 7 World.empty)).2) = [] ∧
      (∀ k ∈ (operator_auto_ptr_ref PtrConv.same 1 (ctor_from_raw 1 7 World.empty)).2.live,
        get k (operator_auto_ptr_ref PtrConv.same 1 (ctor_from_raw 1 7 World.empty)).2 ≠ 7) :=
  ⟨(C16_dropped_proxy_leaks (ctor_from_raw 1 7 World.empty) PtrConv.same 1 7
      (by decide) (by decide)).2.1,
   (C16_dropped_proxy_leaks (ctor_from_raw 1 7 World.empty) PtrConv.same 1 7
      (by decide) (by decide)).2.2.2.2.2.1,
   (C16_dropped_proxy_leaks (ctor_from_raw 1 7 World.empty) PtrConv.same 1 7
      (by decide) (by decide)).2.2.2.2.1 (by decide)⟩

/-- C17 (assignment from an empty source).  If `b` holds the non-null `q` and
`a` is an empty handle other than `b`, then `b = a` evaluates `delete` exactly
once, on `q`, destroys the object at `q` exactly once, and leaves both handles
empty. -/
theorem C17_assign_from_empty (w : World) (a b : Handle) (q : Ptr)
    (hab : a ≠ b) (ha : get a w = null) (hb : get b w = q) (hq : q ≠ null) :
    (operator_assign b a w).2.trace = w.trace ++ [q] ∧
      destroyed (operator_assign b a w).2 = destroyed w ++ [q] ∧
      get a (operator_assign b a w).2 = null ∧
      get b (operator_assign b a w).2 = null := by
  have hba : b ≠ a := fun h => hab h.symm
  subst hb
  have ha2 : w.x_ a = null := ha
  have hq2 : ¬ w.x_ b = null := hq
  simp [auto_ptr.get, operator_assign, release, reset, World.setX, World.delete, destroyed,
    hab, hba, ha2, hq2, List.filter_append]

/-- Witness of C17: `a` at address 1 is empty, `b` at address 2 holds 9. -/
theorem C17_assign_from_empty_witness :
    (operator_assign 2 1 (ctor_from_raw 2 9 (ctor_default 1 World.empty))).2.trace
        = (ctor_from_raw 2 9 (ctor_default 1 World.empty)).trace ++ [9] ∧
      destroyed (operator_assign 2 1 (ctor_from_raw 2 9 (ctor_default 1 World.empty))).2
        = destroyed (ctor_from_raw 2 9 (ctor_default 1 World.empty)) ++ [9] ∧
      get 1 (operator_assign 2 1 (ctor_from_raw 2 9 (ctor_default 1 World.empty))).2 = null ∧
      get 2 (operator_assign 2 1 (ctor_from_raw 2 9 (ctor_default 1 World.empty))).2 = null :=
  C17_assign_from_empty (ctor_from_raw 2 9 (ctor_default 1 World.empty)) 1 2 9
    (by decide) (by decide) (by decide) (by decide)

/-- C18 (reset of an empty handle).  If `h` is empty and `q` is non-null, then
`h.reset(q)` leaves `h.get() == q`, evaluates exactly one `delete`, on the null
pointer, and destroys no object; `h.reset()` with the default null argument on
an empty handle leaves the whole state unchanged. -/
theorem C18_reset_empty (w : World) (h : Handle) (q : Ptr)
    (he : get h w = null) (hq : q ≠ null) :
    get h (reset h q w) = q ∧
      (reset h q w).trace = w.trace ++ [null] ∧
      destroyed (reset h q w) = destroyed w ∧
      reset_default h w = w := by
  have he2 : w.x_ h = null := he
  have hq2 : ¬ null = q := fun e => hq e.symm
  simp [auto_ptr.get, reset_default, reset, World.setX, World.delete, destroyed, he2, hq2,
    List.filter_append]

/-- Witness of C18: the empty handle at address 1 is reset to 9. -/
theorem C18_reset_empty_witness :
    get 1 (reset 1 9 (ctor_default 1 World.empty)) = 9 ∧
      (reset 1 9 (ctor_default 1 World.empty)).trace
        = (ctor_default 1 World.empty).trace ++ [null] ∧
      destroyed (reset 1 9 (ctor_default 1 World.empty))
        = destroyed (ctor_default 1 World.empty) ∧
      reset_default 1 (ctor_default 1 World.empty) = ctor_default 1 World.empty :=
  C18_reset_empty (ctor_default 1 World.empty) 1 9 (by decide) (by decide)

/-! ## Exclusive ownership -/

/-- Exclusive ownership depends on the pointers held and on the live handles only. -/
theorem exclusive_congr {obj : Ptr → Nat} {v w : World} (hx : v.x_ = w.x_)
    (hl : v.live = w.live) (h : exclusive obj w) : exclusive obj v := by
  unfold exclusive at *
  rw [hx, hl]
  exact h

/-- Storing into a handle a pointer that no other live handle holds keeps
ownership exclusive. -/
theorem exclusive_setX {obj : Ptr → Nat} {w : World} (h : exclusive obj w) (t : Handle)
    (v : Ptr)
    (hv : v ≠ null → ∀ k ∈ w.live, k ≠ t → w.x_ k ≠ null → obj (w.x_ k) ≠ obj v) :
    exclusive obj (w.setX t v) := by
  intro a ha b hb hab hna hnb
  have ha2 : a ∈ w.live := ha
  have hb2 : b ∈ w.live := hb
  by_cases hat : a = t
  · have hbt : b ≠ t := fun e => hab (hat.trans e.symm)
    have e1 : (w.setX t v).x_ a = v := by simp [World.setX, hat]
    have e2 : (w.setX t v).x_ b = w.x_ b := by simp [World.setX, hbt]
    rw [e1] at hna ⊢
    rw [e2] at hnb ⊢
    exact fun e => hv hna b hb2 hbt hnb e.symm
  · have e1 : (w.setX t v).x_ a = w.x_ a := by simp [World.setX, hat]
    rw [e1] at hna ⊢
    by_cases hbt : b = t
    · have e2 : (w.setX t v).x_ b = v := by simp [World.setX, hbt]
      rw [e2] at hnb ⊢
      exact hv hnb a ha2 hat hna
    · have e2 : (w.setX t v).x_ b = w.x_ b := by simp [World.setX, hbt]
      rw [e2] at hnb ⊢
      exact h a ha2 b hb2 hab hna hnb

/-- Emptying a handle keeps ownership exclusive. -/
theorem exclusive_setX_null {obj : Ptr → Nat} {w : World} (h : exclusive obj w)
    (t : Handle) : exclusive obj (w.setX t null) :=
  exclusive_setX h t null (fun hn => absurd rfl hn)

/-- A handle that comes alive holding a pointer no other live handle holds
keeps ownership exclusive. -/
theorem exclusive_beginLife {obj : Ptr → Nat} {w : World} (h : exclusive obj w)
    (t : Handle)
    (hv : w.x_ t ≠ null →
      ∀ k ∈ w.live, k ≠ t → w.x_ k ≠ null → obj (w.x_ k) ≠ obj (w.x_ t)) :
    exclusive obj (w.beginLife t) := by
  intro a ha b hb hab hna hnb
  have ha2 : a = t ∨ a ∈ w.live := by simpa [World.beginLife] using ha
  have hb2 : b = t ∨ b ∈ w.live := by simpa [World.beginLife] using hb
  have hna2 : w.x_ a ≠ null := hna
  have hnb2 : w.x_ b ≠ null := hnb
  show obj (w.x_ a) ≠ obj (w.x_ b)
  by_cases hat : a = t
  · have hbt : b ≠ t := fun e => hab (hat.trans e.symm)
    have hbl : b ∈ w.live := hb2.resolve_left hbt
    subst hat
    exact fun e => hv hna2 b hbl hbt hnb2 e.symm
  · have hal : a ∈ w.live := ha2.resolve_left hat
    by_cases hbt : b = t
    · subst hbt
      exact hv hnb2 a hal hat hna2
    · exact h a hal b (hb2.resolve_left hbt) hab hna2 hnb2

/-- The end of a handle's lifetime keeps ownership exclusive. -/
theorem exclusive_endLife {obj : Ptr → Nat} {w : World} (h : exclusive obj w)
    (t : Handle) : exclusive obj (w.endLife t) := by
  intro a ha b hb hab hna hnb
  have ha2 : a ∈ w.live := (List.mem_filter.1 ha).1
  have hb2 : b ∈ w.live := (List.mem_filter.1 hb).1
  exact h a ha2 b hb2 hab hna hnb

/-- The call `release()` keeps ownership exclusive. -/
theorem exclusive_release {obj : Ptr → Nat} {w : World} (h : exclusive obj w)
    (t : Handle) : exclusive obj (release t w).2 :=
  exclusive_setX_null h t

/-- The call `reset(p)` keeps ownership exclusive when no other live handle
holds `p`. -/
theorem exclusive_reset {obj : Ptr → Nat} {w : World} (h : exclusive obj w) (t : Handle)
    (p : Ptr)
    (hp : p ≠ null → ∀ k ∈ w.live, k ≠ t → w.x_ k ≠ null → obj (w.x_ k) ≠ obj p) :
    exclusive obj (reset t p w) := by
  unfold reset
  by_cases e : w.x_ t = p
  · simpa [e] using h
  · simp only [ne_eq, e, not_false_eq_true, if_true]
    exact exclusive_setX (w := w.delete (w.x_ t)) (exclusive_congr rfl rfl h) t p hp

/-- After `release()` on the live handle `a`, no other live handle holds a
pointer to the object `a` held, also after a conversion to the same object. -/
theorem released_not_held {obj : Ptr → Nat} {w : World} (h : exclusive obj w)
    {a : Handle} (ha : a ∈ w.live) (q : Ptr) (hq : obj q = obj (w.x_ a))
    (hqn : q ≠ null → w.x_ a ≠ null) (t : Handle) :
    q ≠ null → ∀ k ∈ (release a w).2.live, k ≠ t → (release a w).2.x_ k ≠ null →
      obj ((release a w).2.x_ k) ≠ obj q := by
  intro hn k hk _ hkn
  have hk2 : k ∈ w.live := hk
  by_cases hka : k = a
  · exact absurd (by simp [release, World.setX, hka]) hkn
  · have e : (release a w).2.x_ k = w.x_ k := by simp [release, World.setX, hka]
    rw [e] at hkn ⊢
    rw [hq]
    exact h k hk2 a ha hka hkn (hqn hn)

/-- A handle constructed with a pointer that no other live handle holds keeps
ownership exclusive. -/
theorem exclusive_construct {obj : Ptr → Nat} {w : World} (h : exclusive obj w)
    (t : Handle) (v : Ptr)
    (hv : v ≠ null → ∀ k ∈ w.live, k ≠ t → w.x_ k ≠ null → obj (w.x_ k) ≠ obj v) :
    exclusive obj ((w.setX t v).beginLife t) := by
  apply exclusive_beginLife (exclusive_setX h t v hv)
  intro hn k hk hkt hkn
  have e1 : (w.setX t v).x_ t = v := by simp [World.setX]
  have e2 : (w.setX t v).x_ k = w.x_ k := by simp [World.setX, hkt]
  rw [e1] at hn ⊢
  rw [e2] at hkn ⊢
  exact hv hn k hk hkt hkn

/-- A converted pointer is non-null only if the pointer converted is. -/
theorem PtrConv.ne_null_of_ne_null (c : PtrConv) {p : Ptr} (h : c.toFun p ≠ null) :
    p ≠ null :=
  fun e => h ((c.null_iff p).2 e)

/-- Transfer by a converting constructor keeps ownership exclusive. -/
theorem exclusive_ctor_convert {obj : Ptr → Nat} {w : World} (h : exclusive obj w)
    (c : PtrConv) (t a : Handle) (ha : a ∈ w.live)
    (hc : obj (c.toFun (w.x_ a)) = obj (w.x_ a)) :
    exclusive obj (ctor_convert c t a w) :=
  exclusive_construct (exclusive_release h a) t (c.toFun (w.x_ a))
    (released_not_held h ha _ hc c.ne_null_of_ne_null t)

/-- Transfer by a converting assignment keeps ownership exclusive. -/
theorem exclusive_assign_convert {obj : Ptr → Nat} {w : World} (h : exclusive obj w)
    (c : PtrConv) (t a : Handle) (ha : a ∈ w.live)
    (hc : obj (c.toFun (w.x_ a)) = obj (w.x_ a)) :
    exclusive obj (operator_assign_convert c t a w).2 :=
  exclusive_reset (exclusive_release h a) t (c.toFun (w.x_ a))
    (released_not_held h ha _ hc c.ne_null_of_ne_null t)

/-- C11 (exclusive ownership is an invariant).  From a state in which no two
live handles hold the same non-null pointer, every well-formed operation leads
to such a state again: copy and converting construction, assignment from a
handle, release, the conversions out, destruction and the accessors without a
further condition; construction from a raw pointer and `reset` when the pointer
is null or not held by another live handle; construction and assignment from a
proxy when the proxy's pointer is null or not held by another live handle, which
is the case for a proxy produced by converting a live handle (second and third
part).  Pointers are compared as pointers to objects (`obj`), and a pointer
conversion is taken to yield a pointer to the same object. -/
theorem C11_exclusive_ownership (obj : Ptr → Nat) (w : World) (hex : exclusive obj w) :
    (∀ op : Op, op.ok w = true → op.keepsObject obj w = true → op.notHeld obj w = true →
        exclusive obj (op.step w)) ∧
      (∀ (c : PtrConv) (a b : Handle), a ∈ w.live → b ∉ w.live →
        obj (c.toFun (w.x_ a)) = obj (w.x_ a) → exclusive obj (proxy_construct c b a w)) ∧
      (∀ (c : PtrConv) (a b : Handle), a ∈ w.live → b ∈ w.live →
        obj (c.toFun (w.x_ a)) = obj (w.x_ a) →
        exclusive obj (proxy_assign c b a w).2) := by
  refine ⟨?_, ?_, ?_⟩
  · intro op hok hkeep hnh
    cases op with
    | ctor_from_raw this p =>
      have hp : p = null ∨ ∀ k ∈ w.live, w.x_ k ≠ null → obj (w.x_ k) ≠ obj p := by
        simpa [Op.notHeld] using hnh
      exact exclusive_construct hex this p
        (fun hn k hk _ hkn => (hp.resolve_left hn) k hk hkn)
    | ctor_copy this a =>
      have ha : a ∈ w.live := by
        have := hok
        simp [Op.ok] at this
        exact this.2
      exact exclusive_construct (exclusive_release hex a) this (w.x_ a)
        (released_not_held hex ha _ rfl (fun hn => hn) this)
    | ctor_convert c this a =>
      have ha : a ∈ w.live := by
        have := hok
        simp [Op.ok] at this
        exact this.2
      exact exclusive_ctor_convert hex c this a ha (by simpa [Op.keepsObject] using hkeep)
    | ctor_from_ref this r =>
      have hp : r.p_ = null ∨ ∀ k ∈ w.live, w.x_ k ≠ null → obj (w.x_ k) ≠ obj r.p_ := by
        simpa [Op.notHeld] using hnh
      exact exclusive_construct hex this r.p_
        (fun hn k hk _ hkn => (hp.resolve_left hn) k hk hkn)
    | operator_assign this a =>
      have ha : a ∈ w.live := by
        have := hok
        simp [Op.ok] at this
        exact this.2
      exact exclusive_reset (exclusive_release hex a) this (w.x_ a)
        (released_not_held hex ha _ rfl (fun hn => hn) this)
    | operator_assign_convert c this a =>
      have ha : a ∈ w.live := by
        have := hok
        simp [Op.ok] at this
        exact this.2
      exact exclusive_assign_convert hex c this a ha (by simpa [Op.keepsObject] using hkeep)
    | operator_assign_ref this r =>
      have hp : r.p_ = null ∨
          ∀ k ∈ w.live, k ≠ this → w.x_ k ≠ null → obj (w.x_ k) ≠ obj r.p_ := by
        simpa [Op.notHeld] using hnh
      exact exclusive_reset hex this r.p_ (fun hn => hp.resolve_left hn)
    | dtor this =>
      exact exclusive_endLife (w := w.delete (w.x_ this)) (exclusive_congr rfl rfl hex) this
    | get this => exact hex
    | operator_arrow this => exact hex
    | release this => exact exclusive_release hex this
    | reset this p =>
      have hp : p = null ∨
          ∀ k ∈ w.live, k ≠ this → w.x_ k ≠ null → obj (w.x_ k) ≠ obj p := by
        simpa [Op.notHeld] using hnh
      exact exclusive_reset hex this p (fun hn => hp.resolve_left hn)
    | operator_auto_ptr c this ret =>
      have ha : this ∈ w.live := by
        have := hok
        simp [Op.ok] at this
        exact this.1
      have hc : obj (c.toFun (w.x_ this)) = obj (w.x_ this) := by
        simpa [Op.keepsObject] using hkeep
      exact exclusive_construct (exclusive_release hex this) ret (c.toFun (w.x_ this))
        (released_not_held hex ha _ hc c.ne_null_of_ne_null ret)
    | operator_auto_ptr_ref c this => exact exclusive_release hex this
  · intro c a b ha _ hc
    exact exclusive_ctor_convert hex c b a ha hc
  · intro c a b ha _ hc
    exact exclusive_assign_convert hex c b a ha hc

/-- Witness of C11: `a` at address 1 holds 16 and `b` at address 2 holds 32, no
other handle is alive; a new handle at address 3 is built from `a` with a
conversion to a base subobject 8 bytes into the object, objects being 16 bytes
apart. -/
theorem C11_exclusive_ownership_witness :
    exclusive (fun p => p / 16) (ctor_from_raw 2 32 (ctor_from_raw 1 16 World.empty)) ∧
      exclusive (fun p => p / 16)
        (Op.step (Op.ctor_convert (PtrConv.offset 8) 3 1)
          (ctor_from_raw 2 32 (ctor_from_raw 1 16 World.empty))) :=
  ⟨by decide,
   (C11_exclusive_ownership (fun p => p / 16)
      (ctor_from_raw 2 32 (ctor_from_raw 1 16 World.empty)) (by decide)).1
      (Op.ctor_convert (PtrConv.offset 8) 3 1) (by decide) (by decide) (by decide)⟩


/-! ## Accounting for adopted objects -/

theorem pointsTo_null (obj : Ptr → Nat) (o : Nat) : pointsTo obj o null = 0 := by
  simp [pointsTo]

theorem pointsTo_le_one (obj : Ptr → Nat) (o : Nat) (p : Ptr) : pointsTo obj o p ≤ 1 := by
  unfold pointsTo
  split <;> omega

theorem pointsTo_self (obj : Ptr → Nat) {p : Ptr} (hp : p ≠ null) :
    pointsTo obj (obj p) p = 1 := by
  simp [pointsTo, hp]

theorem pointsTo_eq_one (obj : Ptr → Nat) {o : Nat} {p : Ptr} (h : pointsTo obj o p ≠ 0) :
    p ≠ null ∧ obj p = o := by
  unfold pointsTo at h
  by_cases hc : p ≠ null ∧ obj p = o
  · exact hc
  · simp [hc] at h

/-- A conversion to the same object does not change what a pointer points to. -/
theorem pointsTo_conv (obj : Ptr → Nat) (o : Nat) (c : PtrConv) (p : Ptr)
    (hc : obj (c.toFun p) = obj p) : pointsTo obj o (c.toFun p) = pointsTo obj o p := by
  unfold pointsTo
  rw [hc]
  have : c.toFun p ≠ null ↔ p ≠ null := not_congr (c.null_iff p)
  simp only [this]

/-- How often the object `o` occurs among the objects of a list of non-null
pointers extended by `p`. -/
theorem count_obj_singleton (obj : Ptr → Nat) (o : Nat) (p : Ptr) :
    (((if p = null then [] else [p]) : List Ptr).map obj).count o = pointsTo obj o p := by
  unfold pointsTo
  by_cases hp : p = null
  · simp [hp]
  · by_cases ho : obj p = o
    · simp [hp, ho]
    · have ho2 : ¬ o = obj p := fun e => ho e.symm
      simp [hp, ho, List.count_cons, ho2]

/-- The objects destroyed after one more `delete`. -/
theorem destroyed_count_delete (obj : Ptr → Nat) (o : Nat) (w : World) (p : Ptr) :
    ((destroyed (w.delete p)).map obj).count o
      = ((destroyed w).map obj).count o + pointsTo obj o p := by
  rw [destroyed_append, List.map_append, List.count_append]
  have := count_obj_singleton obj o p
  by_cases hp : p = null
  · simp [hp, pointsTo_null]
  · simp only [hp, if_false] at this
    simp only [ne_eq, hp, not_false_eq_true, if_true]
    rw [this]

/-- The sum over a list without duplicates after the function is changed at `t`. -/
theorem sum_map_update (l : List Handle) (hl : l.Nodup) (f : Handle → Nat) (t : Handle)
    (v : Nat) :
    (l.map (fun k => if k = t then v else f k)).sum + (if t ∈ l then f t else 0)
      = (l.map f).sum + (if t ∈ l then v else 0) := by
  induction l with
  | nil => simp
  | cons x l ih =>
    have hx : x ∉ l := (List.nodup_cons.1 hl).1
    have ih2 := ih (List.nodup_cons.1 hl).2
    by_cases hxt : x = t
    · subst hxt
      simp only [hx, if_false, Nat.add_zero] at ih2
      simp [ih2]
      omega
    · have htx : ¬ t = x := fun e => hxt e.symm
      by_cases htl : t ∈ l
      · simp only [htl, if_true] at ih2
        simp [hxt, htx, htl]
        omega
      · simp only [htl, if_false, Nat.add_zero] at ih2
        simp [hxt, htx, htl, ih2]

theorem holders_setX (obj : Ptr → Nat) (o : Nat) (w : World) (hl : w.live.Nodup)
    (t : Handle) (v : Ptr) :
    holders obj o (w.setX t v) + (if t ∈ w.live then pointsTo obj o (w.x_ t) else 0)
      = holders obj o w + (if t ∈ w.live then pointsTo obj o v else 0) := by
  have h := sum_map_update w.live hl (fun k => pointsTo obj o (w.x_ k)) t (pointsTo obj o v)
  have e : (fun k => pointsTo obj o ((w.setX t v).x_ k))
      = (fun k => if k = t then pointsTo obj o v else pointsTo obj o (w.x_ k)) := by
    funext k
    by_cases hk : k = t <;> simp [World.setX, hk]
  unfold holders
  have e2 : (w.setX t v).live = w.live := rfl
  rw [e2, e]
  exact h

theorem holders_beginLife (obj : Ptr → Nat) (o : Nat) (w : World) (t : Handle) :
    holders obj o (w.beginLife t) = holders obj o w + pointsTo obj o (w.x_ t) := by
  simp [holders, World.beginLife]
  omega

/-- The sum over a list without duplicates after `t` is removed from it. -/
theorem sum_map_filter_ne (l : List Handle) (hl : l.Nodup) (f : Handle → Nat) (t : Handle) :
    ((l.filter (fun k => decide (k ≠ t))).map f).sum + (if t ∈ l then f t else 0)
      = (l.map f).sum := by
  induction l with
  | nil => simp
  | cons x l ih =>
    have hx : x ∉ l := (List.nodup_cons.1 hl).1
    have ih2 := ih (List.nodup_cons.1 hl).2
    by_cases hxt : x = t
    · subst hxt
      simp only [hx, if_false, Nat.add_zero] at ih2
      have e : (x :: l).filter (fun k => decide (k ≠ x)) = l.filter (fun k => decide (k ≠ x)) := by
        simp [List.filter_cons]
      rw [e]
      simp only [List.mem_cons, true_or, if_true, List.map_cons, List.sum_cons]
      omega
    · have htx : ¬ t = x := fun e => hxt e.symm
      have e : (x :: l).filter (fun k => decide (k ≠ t))
          = x :: l.filter (fun k => decide (k ≠ t)) := by
        simp [List.filter_cons, hxt]
      rw [e]
      by_cases htl : t ∈ l
      · simp only [htl, if_true] at ih2
        simp only [List.mem_cons, htx, htl, or_true, if_true, List.map_cons, List.sum_cons]
        omega
      · simp only [htl, if_false, Nat.add_zero] at ih2
        simp only [List.mem_cons, htx, htl, or_false, if_false, List.map_cons, List.sum_cons]
        omega

theorem holders_endLife (obj : Ptr → Nat) (o : Nat) (w : World) (hl : w.live.Nodup)
    (t : Handle) :
    holders obj o (w.endLife t) + (if t ∈ w.live then pointsTo obj o (w.x_ t) else 0)
      = holders obj o w :=
  sum_map_filter_ne w.live hl (fun k => pointsTo obj o (w.x_ k)) t

theorem holders_congr (obj : Ptr → Nat) (o : Nat) {v w : World} (hx : v.x_ = w.x_)
    (hl : v.live = w.live) : holders obj o v = holders obj o w := by
  unfold holders
  rw [hx, hl]

/-- A live handle that holds a pointer to `o` is counted among the holders. -/
theorem pointsTo_le_holders (obj : Ptr → Nat) (o : Nat) (w : World) {t : Handle}
    (ht : t ∈ w.live) : pointsTo obj o (w.x_ t) ≤ holders obj o w := by
  unfold holders
  exact List.single_le_sum (by intro x _; exact Nat.zero_le x) _
    (List.mem_map.2 ⟨t, ht, rfl⟩)

theorem release_holders (obj : Ptr → Nat) (o : Nat) (w : World) (hl : w.live.Nodup)
    {t : Handle} (ht : t ∈ w.live) :
    holders obj o (release t w).2 + pointsTo obj o (w.x_ t) = holders obj o w := by
  have h := holders_setX obj o w hl t null
  simp only [ht, if_true, pointsTo_null, Nat.add_zero] at h
  exact h

theorem construct_holders (obj : Ptr → Nat) (o : Nat) (w : World) (hl : w.live.Nodup)
    {t : Handle} (ht : t ∉ w.live) (v : Ptr) :
    holders obj o ((w.setX t v).beginLife t) = holders obj o w + pointsTo obj o v := by
  have h := holders_setX obj o w hl t v
  simp only [ht, if_false, Nat.add_zero] at h
  rw [holders_beginLife, h]
  simp [World.setX]

theorem reset_holders (obj : Ptr → Nat) (o : Nat) (w : World) (hl : w.live.Nodup)
    {t : Handle} (ht : t ∈ w.live) (p : Ptr) (hne : w.x_ t ≠ p) :
    holders obj o (reset t p w) + ((destroyed (reset t p w)).map obj).count o
      = holders obj o w + ((destroyed w).map obj).count o + pointsTo obj o p := by
  have hr : reset t p w = (w.delete (w.x_ t)).setX t p := by
    simp [reset, hne]
  have h1 := holders_setX obj o (w.delete (w.x_ t)) hl t p
  have ht2 : t ∈ (w.delete (w.x_ t)).live := ht
  simp only [ht2, if_true] at h1
  have h2 : holders obj o (w.delete (w.x_ t)) = holders obj o w := holders_congr obj o rfl rfl
  have h3 : (w.delete (w.x_ t)).x_ t = w.x_ t := rfl
  have h4 := destroyed_count_delete obj o w (w.x_ t)
  have h5 : destroyed ((w.delete (w.x_ t)).setX t p) = destroyed (w.delete (w.x_ t)) :=
    destroyed_congr rfl
  rw [hr, h5, h4]
  rw [h2, h3] at h1
  omega

theorem dtor_holders (obj : Ptr → Nat) (o : Nat) (w : World) (hl : w.live.Nodup)
    {t : Handle} (ht : t ∈ w.live) :
    holders obj o (dtor t w) + ((destroyed (dtor t w)).map obj).count o
      = holders obj o w + ((destroyed w).map obj).count o := by
  have h1 := holders_endLife obj o (w.delete (w.x_ t)) hl t
  have ht2 : t ∈ (w.delete (w.x_ t)).live := ht
  simp only [ht2, if_true] at h1
  have h2 : holders obj o (w.delete (w.x_ t)) = holders obj o w := holders_congr obj o rfl rfl
  have h3 : (w.delete (w.x_ t)).x_ t = w.x_ t := rfl
  have h4 := destroyed_count_delete obj o w (w.x_ t)
  have h5 : destroyed (dtor t w) = destroyed (w.delete (w.x_ t)) := destroyed_congr rfl
  rw [h5, h4]
  rw [h2, h3] at h1
  have h6 : holders obj o (dtor t w) = holders obj o ((w.delete (w.x_ t)).endLife t) := rfl
  rw [h6]
  omega

/-- The objects of the newly adopted pointer and of those adopted before have
no duplicates when the new pointer is fresh. -/
theorem nodup_adopt (obj : Ptr → Nat) {used : List Nat} (hu : used.Nodup) (p : Ptr)
    (hp : p = null ∨ obj p ∉ used) :
    (((if p = null then [] else [p]) : List Ptr).map obj ++ used).Nodup := by
  by_cases h0 : p = null
  · simpa [h0] using hu
  · simp only [h0, if_false, List.map_cons, List.map_nil, List.singleton_append]
    exact List.nodup_cons.2 ⟨hp.resolve_left h0, hu⟩

theorem count_le_one_of_nodup {used : List Nat} (hu : used.Nodup) (o : Nat) :
    used.count o ≤ 1 :=
  List.nodup_iff_count_le_one.1 hu o

/-- The pointer left in a proxy points to the object the handle held. -/
theorem count_obj_proxy (obj : Ptr → Nat) (o : Nat) (c : PtrConv) (p : Ptr)
    (hc : obj (c.toFun p) = obj p) :
    (((if p = null then [] else [c.toFun p]) : List Ptr).map obj).count o
      = pointsTo obj o p := by
  by_cases hp : p = null
  · simp [hp, pointsTo_null]
  · have hcp : c.toFun p ≠ null := fun e => hp ((c.null_iff p).1 e)
    have h := count_obj_singleton obj o (c.toFun p)
    simp only [hcp, if_false] at h
    simp only [hp, if_false]
    rw [h, pointsTo_conv obj o c p hc]

/-- One well-formed operation keeps every adopted object accounted for. -/
theorem accounted_step (obj : Ptr → Nat) (w : World) (out : List Ptr) (used : List Nat)
    (op : Op) (hinv : accounted obj w out used) (hok : op.ok w = true)
    (hkeep : op.keepsObject obj w = true) (hfresh : op.freshIn obj used = true) :
    accounted obj (op.step w) (out ++ op.handsBack w) (op.adopts.map obj ++ used) := by
  obtain ⟨hl, hu, hc⟩ := hinv
  have hle := count_le_one_of_nodup hu
  cases op with
  | ctor_from_raw this p =>
    have ht : this ∉ w.live := by simpa [Op.ok] using hok
    have hp : p = null ∨ obj p ∉ used := by simpa [Op.freshIn] using hfresh
    refine ⟨List.nodup_cons.2 ⟨ht, hl⟩, nodup_adopt obj hu p hp, ?_⟩
    intro o
    have h1 := construct_holders obj o w hl ht p
    have h2 : destroyed (Op.step (Op.ctor_from_raw this p) w) = destroyed w :=
      destroyed_congr rfl
    have h3 := count_obj_singleton obj o p
    have h4 := hc o
    simp only [Op.handsBack, Op.adopts, List.append_nil, List.count_append]
    rw [h2, h3]
    simp only [Op.step, ctor_from_raw]
    rw [h1]
    omega
  | ctor_copy this a =>
    have hta : this ∉ w.live ∧ a ∈ w.live := by simpa [Op.ok] using hok
    refine ⟨List.nodup_cons.2 ⟨hta.1, hl⟩, by simpa [Op.adopts] using hu, ?_⟩
    intro o
    have h0 := release_holders obj o w hl hta.2
    have h1 := construct_holders obj o (release a w).2 hl hta.1 (w.x_ a)
    have h2 : destroyed (Op.step (Op.ctor_copy this a) w) = destroyed w :=
      destroyed_congr rfl
    have h4 := hc o
    simp only [Op.handsBack, Op.adopts, List.append_nil, List.map_nil, List.nil_append]
    rw [h2]
    simp only [Op.step, ctor_copy]
    have e : (release a w).1 = w.x_ a := rfl
    rw [e, h1]
    omega
  | ctor_convert c this a =>
    have hta : this ∉ w.live ∧ a ∈ w.live := by simpa [Op.ok] using hok
    have hk : obj (c.toFun (w.x_ a)) = obj (w.x_ a) := by
      simpa [Op.keepsObject] using hkeep
    refine ⟨List.nodup_cons.2 ⟨hta.1, hl⟩, by simpa [Op.adopts] using hu, ?_⟩
    intro o
    have h0 := release_holders obj o w hl hta.2
    have h1 := construct_holders obj o (release a w).2 hl hta.1 (c.toFun (w.x_ a))
    have h2 : destroyed (Op.step (Op.ctor_convert c this a) w) = destroyed w :=
      destroyed_congr rfl
    have h3 := pointsTo_conv obj o c (w.x_ a) hk
    have h4 := hc o
    simp only [Op.handsBack, Op.adopts, List.append_nil, List.map_nil, List.nil_append]
    rw [h2]
    simp only [Op.step, ctor_convert]
    have e : (release a w).1 = w.x_ a := rfl
    rw [e, h1]
    omega
  | ctor_from_ref this r => simp [Op.freshIn] at hfresh
  | operator_assign this a =>
    have hta : this ∈ w.live ∧ a ∈ w.live := by simpa [Op.ok] using hok
    refine ⟨?_, by simpa [Op.adopts] using hu, ?_⟩
    · have e : (Op.step (Op.operator_assign this a) w).live = w.live := by
        simp only [Op.step, operator_assign, reset, release]
        split <;> rfl
      rw [e]
      exact hl
    · intro o
      have h0 := release_holders obj o w hl hta.2
      have h4 := hc o
      have h5 := hle o
      have hw1 : destroyed (release a w).2 = destroyed w := destroyed_congr rfl
      simp only [Op.handsBack, Op.adopts, List.append_nil, List.map_nil, List.nil_append]
      simp only [Op.step, operator_assign]
      have e : (release a w).1 = w.x_ a := rfl
      rw [e]
      by_cases hq : (release a w).2.x_ this = w.x_ a
      · have hr : reset this (w.x_ a) (release a w).2 = (release a w).2 := by
          simp [reset, hq]
        have h6 := pointsTo_le_holders obj o (release a w).2 (t := this) hta.1
        rw [hq] at h6
        rw [hr, hw1]
        omega
      · have h1 := reset_holders obj o (release a w).2 hl (t := this) hta.1 (w.x_ a) hq
        rw [hw1] at h1
        omega
  | operator_assign_convert c this a =>
    have hta : this ∈ w.live ∧ a ∈ w.live := by simpa [Op.ok] using hok
    have hk : obj (c.toFun (w.x_ a)) = obj (w.x_ a) := by
      simpa [Op.keepsObject] using hkeep
    refine ⟨?_, by simpa [Op.adopts] using hu, ?_⟩
    · have e : (Op.step (Op.operator_assign_convert c this a) w).live = w.live := by
        simp only [Op.step, operator_assign_convert, reset, release]
        split <;> rfl
      rw [e]
      exact hl
    · intro o
      have h0 := release_holders obj o w hl hta.2
      have h3 := pointsTo_conv obj o c (w.x_ a) hk
      have h4 := hc o
      have h5 := hle o
      have hw1 : destroyed (release a w).2 = destroyed w := destroyed_congr rfl
      simp only [Op.handsBack, Op.adopts, List.append_nil, List.map_nil, List.nil_append]
      simp only [Op.step, operator_assign_convert]
      have e : (release a w).1 = w.x_ a := rfl
      rw [e]
      by_cases hq : (release a w).2.x_ this = c.toFun (w.x_ a)
      · have hr : reset this (c.toFun (w.x_ a)) (release a w).2 = (release a w).2 := by
          simp [reset, hq]
        have h6 := pointsTo_le_holders obj o (release a w).2 (t := this) hta.1
        rw [hq] at h6
        rw [hr, hw1]
        omega
      · have h1 := reset_holders obj o (release a w).2 hl (t := this) hta.1
          (c.toFun (w.x_ a)) hq
        rw [hw1] at h1
        omega
  | operator_assign_ref this r => simp [Op.freshIn] at hfresh
  | dtor this =>
    have ht : this ∈ w.live := by simpa [Op.ok] using hok
    refine ⟨List.Nodup.filter _ hl, by simpa [Op.adopts] using hu, ?_⟩
    intro o
    have h1 := dtor_holders obj o w hl ht
    have h4 := hc o
    simp only [Op.handsBack, Op.adopts, List.append_nil, List.map_nil, List.nil_append]
    simp only [Op.step]
    omega
  | get this =>
    refine ⟨hl, by simpa [Op.adopts] using hu, ?_⟩
    intro o
    simpa [Op.handsBack, Op.adopts, Op.step] using hc o
  | operator_arrow this =>
    refine ⟨hl, by simpa [Op.adopts] using hu, ?_⟩
    intro o
    simpa [Op.handsBack, Op.adopts, Op.step] using hc o
  | release this =>
    have ht : this ∈ w.live := by simpa [Op.ok] using hok
    refine ⟨hl, by simpa [Op.adopts] using hu, ?_⟩
    intro o
    have h0 := release_holders obj o w hl ht
    have h2 : destroyed (release this w).2 = destroyed w := destroyed_congr rfl
    have h3 := count_obj_singleton obj o (w.x_ this)
    have h4 := hc o
    simp only [Op.handsBack, Op.adopts, List.map_nil, List.nil_append, List.map_append,
      List.count_append, Op.step]
    rw [h2, h3]
    omega
  | reset this p =>
    have ht : this ∈ w.live := by simpa [Op.ok] using hok
    have hp : p = null ∨ obj p ∉ used := by simpa [Op.freshIn] using hfresh
    refine ⟨?_, nodup_adopt obj hu p hp, ?_⟩
    · have e : (Op.step (Op.reset this p) w).live = w.live := by
        simp only [Op.step, reset]
        split <;> rfl
      rw [e]
      exact hl
    · intro o
      have h3 := count_obj_singleton obj o p
      have h4 := hc o
      simp only [Op.handsBack, Op.adopts, List.append_nil, List.count_append, Op.step]
      rw [h3]
      by_cases hq : w.x_ this = p
      · have hr : reset this p w = w := by simp [reset, hq]
        have h6 := pointsTo_le_holders obj o w (t := this) ht
        rw [hq] at h6
        rw [hr]
        by_cases hP : pointsTo obj o p = 0
        · omega
        · obtain ⟨hpn, hpo⟩ := pointsTo_eq_one obj hP
          have hnot : obj p ∉ used := hp.resolve_left hpn
          rw [hpo] at hnot
          have hz : used.count o = 0 := List.count_eq_zero.2 hnot
          omega
      · have h1 := reset_holders obj o w hl (t := this) ht p hq
        omega
  | operator_auto_ptr c this ret =>
    have hta : this ∈ w.live ∧ ret ∉ w.live := by simpa [Op.ok] using hok
    have hk : obj (c.toFun (w.x_ this)) = obj (w.x_ this) := by
      simpa [Op.keepsObject] using hkeep
    refine ⟨List.nodup_cons.2 ⟨hta.2, hl⟩, by simpa [Op.adopts] using hu, ?_⟩
    intro o
    have h0 := release_holders obj o w hl hta.1
    have h1 := construct_holders obj o (release this w).2 hl hta.2 (c.toFun (w.x_ this))
    have h2 : destroyed (Op.step (Op.operator_auto_ptr c this ret) w) = destroyed w :=
      destroyed_congr rfl
    have h3 := pointsTo_conv obj o c (w.x_ this) hk
    have h4 := hc o
    simp only [Op.handsBack, Op.adopts, List.append_nil, List.map_nil, List.nil_append]
    rw [h2]
    simp only [Op.step, operator_auto_ptr, ctor_from_raw]
    have e : (release this w).1 = w.x_ this := rfl
    rw [e, h1]
    omega
  | operator_auto_ptr_ref c this =>
    have ht : this ∈ w.live := by simpa [Op.ok] using hok
    have hk : obj (c.toFun (w.x_ this)) = obj (w.x_ this) := by
      simpa [Op.keepsObject] using hkeep
    refine ⟨hl, by simpa [Op.adopts] using hu, ?_⟩
    intro o
    have h0 := release_holders obj o w hl ht
    have h2 : destroyed (release this w).2 = destroyed w := destroyed_congr rfl
    have h3 := count_obj_proxy obj o c (w.x_ this) hk
    have h4 := hc o
    simp only [Op.handsBack, Op.adopts, List.map_nil, List.nil_append, List.map_append,
      List.count_append, Op.step, operator_auto_ptr_ref]
    rw [h2, h3]
    omega

/-- A well-formed sequence of operations keeps every adopted object accounted
for; the objects adopted along the way are added to `used`. -/
theorem accounted_run (obj : Ptr → Nat) (ops : List Op) :
    ∀ (w : World) (out : List Ptr) (used : List Nat), accounted obj w out used →
      scopeOk obj ops w used = true →
      ∃ used2, accounted obj (run ops w) (out ++ handedBack ops w) used2 ∧
        ∀ o, used2.count o = ((adopted ops).map obj).count o + used.count o := by
  induction ops with
  | nil =>
    intro w out used hinv _
    exact ⟨used, by simpa [run, handedBack] using hinv, by simp [adopted]⟩
  | cons op ops ih =>
    intro w out used hinv hok
    have h : ((op.ok w = true ∧ op.keepsObject obj w = true) ∧ op.freshIn obj used = true) ∧
        scopeOk obj ops (op.step w) (op.adopts.map obj ++ used) = true := by
      simpa [scopeOk] using hok
    have hstep := accounted_step obj w out used op hinv h.1.1.1 h.1.1.2 h.1.2
    obtain ⟨used2, h2, h3⟩ := ih (op.step w) (out ++ op.handsBack w)
      (op.adopts.map obj ++ used) hstep h.2
    refine ⟨used2, ?_, ?_⟩
    · simpa [run, handedBack, List.append_assoc] using h2
    · intro o
      rw [h3 o]
      simp only [adopted, List.map_append, List.count_append]
      omega

theorem destroyEach_eq_run (l : List Handle) :
    ∀ w : World, destroyEach l w = run (l.map Op.dtor) w := by
  induction l with
  | nil => intro w; rfl
  | cons h l ih => intro w; exact ih (dtor h w)

theorem scopeOk_dtors (obj : Ptr → Nat) (l : List Handle) :
    ∀ (w : World) (used : List Nat), l.Nodup → (∀ h ∈ l, h ∈ w.live) →
      scopeOk obj (l.map Op.dtor) w used = true := by
  induction l with
  | nil => intro w used _ _; rfl
  | cons h l ih =>
    intro w used hn hsub
    have hh : h ∈ w.live := hsub h (List.mem_cons_self h l)
    have hrest : ∀ k ∈ l, k ∈ (dtor h w).live := by
      intro k hk
      have hkh : k ≠ h := fun e => (List.nodup_cons.1 hn).1 (e ▸ hk)
      have hkl : k ∈ w.live := hsub k (List.mem_cons_of_mem h hk)
      simp [dtor, World.endLife, World.delete, hkl, hkh]
    have := ih (dtor h w) used (List.nodup_cons.1 hn).2 hrest
    simp [scopeOk, Op.ok, Op.keepsObject, Op.freshIn, Op.adopts, Op.step, hh, this]

theorem handedBack_dtors (l : List Handle) :
    ∀ w : World, handedBack (l.map Op.dtor) w = [] := by
  induction l with
  | nil => intro w; rfl
  | cons h l ih => intro w; simp [handedBack, Op.handsBack, ih]

theorem adopted_dtors (l : List Handle) : adopted (l.map Op.dtor) = [] := by
  induction l with
  | nil => rfl
  | cons h l ih => simp [adopted, Op.adopts, ih]

theorem destroyEach_live (l : List Handle) :
    ∀ (w : World) (k : Handle), k ∈ (destroyEach l w).live → k ∈ w.live ∧ k ∉ l := by
  induction l with
  | nil => intro w k hk; exact ⟨hk, List.not_mem_nil k⟩
  | cons h l ih =>
    intro w k hk
    obtain ⟨h1, h2⟩ := ih (dtor h w) k hk
    have h3 : k ∈ w.live ∧ k ≠ h := by
      simpa [dtor, World.endLife, World.delete] using h1
    exact ⟨h3.1, fun hm => (List.mem_cons.1 hm).elim h3.2 h2⟩

theorem scope_exit_live (w : World) : (scope_exit w).live = [] := by
  apply List.eq_nil_iff_forall_not_mem.2
  intro k hk
  obtain ⟨h1, h2⟩ := destroyEach_live w.live w k hk
  exact h2 h1

theorem accounted_empty (obj : Ptr → Nat) : accounted obj World.empty [] [] := by
  refine ⟨List.nodup_nil, List.nodup_nil, ?_⟩
  intro o
  simp [holders, World.empty, destroyed]

/-- After a well-formed sequence of operations from the empty state and the
scope exit, the objects destroyed or handed back are the objects adopted, each
once. -/
theorem scope_account (obj : Ptr → Nat) (ops : List Op)
    (hok : scopeOk obj ops World.empty [] = true) :
    ∃ used : List Nat, used.Nodup ∧
      (∀ o, used.count o = ((adopted ops).map obj).count o) ∧
      ∀ o, ((destroyed (scope_exit (run ops World.empty))
              ++ handedBack ops World.empty).map obj).count o = used.count o := by
  obtain ⟨u1, h1, hc1⟩ := accounted_run obj ops World.empty [] [] (accounted_empty obj) hok
  have hdt := scopeOk_dtors obj (run ops World.empty).live (run ops World.empty) u1
    h1.1 (fun _ h => h)
  obtain ⟨u2, h2, hc2⟩ := accounted_run obj ((run ops World.empty).live.map Op.dtor)
    (run ops World.empty) ([] ++ handedBack ops World.empty) u1 h1 hdt
  rw [← destroyEach_eq_run, handedBack_dtors] at h2
  rw [adopted_dtors] at hc2
  have hse : destroyEach (run ops World.empty).live (run ops World.empty)
      = scope_exit (run ops World.empty) := rfl
  rw [hse] at h2
  refine ⟨u2, h2.2.1, ?_, ?_⟩
  · intro o
    rw [hc2 o, hc1 o]
    simp
  · intro o
    have h3 := h2.2.2 o
    have h4 : holders obj o (scope_exit (run ops World.empty)) = 0 := by
      simp [holders, scope_exit_live]
    simp only [List.nil_append, List.append_nil] at h3
    rw [h4] at h3
    simp only [List.map_append, List.count_append]
    omega

/-- C12 (exactly-once destruction over a whole scope).  Run from the empty
state any sequence of well-formed operations in which every raw pointer given
to a constructor or to `reset` is null or points to an object not adopted
before, then destroy all live handles.  Then no handle is left alive, no
pointer and no object is destroyed twice, the objects destroyed or handed back
(by `release()` or in a proxy that no handle consumed) are exactly the objects
adopted, each once, and so every adopted pointer that was not handed back is
destroyed exactly once.  A proxy that a handle consumes is the converting
construction or assignment (sixth part).  In particular, for distinct non-null
`p1`, `p2` and distinct handles, `a(p1); b(p2); b = a;` destroys `p2` at the
assignment, and the scope exit, which destroys `b` and then `a`, destroys `p1`
at the destruction of `b` and nothing at the destruction of `a`. -/
theorem C12_exactly_once (obj : Ptr → Nat) (ops : List Op)
    (hok : scopeOk obj ops World.empty [] = true) :
    (scope_exit (run ops World.empty)).live = [] ∧
      (destroyed (scope_exit (run ops World.empty))).Nodup ∧
      ((destroyed (scope_exit (run ops World.empty))
          ++ handedBack ops World.empty).map obj).Nodup ∧
      List.Perm
        ((destroyed (scope_exit (run ops World.empty)) ++ handedBack ops World.empty).map obj)
        ((adopted ops).map obj) ∧
      (∀ p ∈ adopted ops, obj p ∉ (handedBack ops World.empty).map obj →
        ((destroyed (scope_exit (run ops World.empty))).map obj).count (obj p) = 1) ∧
      (∀ (c : PtrConv) (b a : Handle) (w : World),
        proxy_construct c b a w = Op.step (Op.ctor_convert c b a) w ∧
        (proxy_assign c b a w).2 = Op.step (Op.operator_assign_convert c b a) w) ∧
      (∀ (a b : Handle) (p1 p2 : Ptr), a ≠ b → p1 ≠ null → p2 ≠ null → p1 ≠ p2 →
        destroyed (run [Op.ctor_from_raw a p1, Op.ctor_from_raw b p2] World.empty) = [] ∧
        destroyed (run [Op.ctor_from_raw a p1, Op.ctor_from_raw b p2,
          Op.operator_assign b a] World.empty) = [p2] ∧
        scope_exit (run [Op.ctor_from_raw a p1, Op.ctor_from_raw b p2,
          Op.operator_assign b a] World.empty)
          = dtor a (dtor b (run [Op.ctor_from_raw a p1, Op.ctor_from_raw b p2,
              Op.operator_assign b a] World.empty)) ∧
        destroyed (dtor b (run [Op.ctor_from_raw a p1, Op.ctor_from_raw b p2,
          Op.operator_assign b a] World.empty)) = [p2, p1] ∧
        destroyed (dtor a (dtor b (run [Op.ctor_from_raw a p1, Op.ctor_from_raw b p2,
          Op.operator_assign b a] World.empty))) = [p2, p1]) := by
  obtain ⟨used, hu, hadopt, hcount⟩ := scope_account obj ops hok
  have hnd : ((destroyed (scope_exit (run ops World.empty))
      ++ handedBack ops World.empty).map obj).Nodup := by
    apply List.nodup_iff_count_le_one.2
    intro o
    rw [hcount o]
    exact count_le_one_of_nodup hu o
  refine ⟨scope_exit_live _, ?_, hnd, ?_, ?_, fun _ _ _ _ => ⟨rfl, rfl⟩, ?_⟩
  · have h1 : (destroyed (scope_exit (run ops World.empty))
        ++ handedBack ops World.empty).Nodup := List.Nodup.of_map obj hnd
    exact (List.nodup_append.1 h1).1
  · apply List.perm_iff_count.2
    intro o
    rw [hcount o, hadopt o]
  · intro p hp hnot
    have h1 := hcount (obj p)
    have h2 := hadopt (obj p)
    have h3 : 0 < ((adopted ops).map obj).count (obj p) :=
      List.count_pos_iff.2 (List.mem_map.2 ⟨p, hp, rfl⟩)
    have h4 := count_le_one_of_nodup hu (obj p)
    have h5 : ((handedBack ops World.empty).map obj).count (obj p) = 0 :=
      List.count_eq_zero.2 hnot
    simp only [List.map_append, List.count_append] at h1
    omega
  · intro a b p1 p2 hab h1 h2 h12
    have hba : b ≠ a := fun e => hab e.symm
    have h21 : p2 ≠ p1 := fun e => h12 e.symm
    have h1n : ¬ p1 = null := h1
    have h2n : ¬ p2 = null := h2
    refine ⟨?_, ?_, ?_, ?_, ?_⟩
    · simp [run, Op.step, ctor_from_raw, World.setX, World.beginLife, World.empty, destroyed]
    · simp [run, Op.step, ctor_from_raw, operator_assign, release, reset, World.setX,
        World.beginLife, World.delete, World.empty, destroyed, hab, hba, h21, h2n]
    · simp [scope_exit, destroyEach, run, Op.step, ctor_from_raw, operator_assign, release,
        reset, World.setX, World.beginLife, World.delete, World.empty, hab, hba, h21]
    · simp [run, Op.step, ctor_from_raw, operator_assign, release, reset, dtor, World.setX,
        World.beginLife, World.endLife, World.delete, World.empty, destroyed, hab, hba, h21,
        h1n, h2n, List.filter_cons]
    · simp [run, Op.step, ctor_from_raw, operator_assign, release, reset, dtor, World.setX,
        World.beginLife, World.endLife, World.delete, World.empty, destroyed, hab, hba, h21,
        h1n, h2n, List.filter_cons]

/-- Witness of C12: `a(7); b(9); b = a;` with `a` at address 1 and `b` at
address 2, followed by the scope exit: the adopted pointer 9 is destroyed
exactly once. -/
theorem C12_exactly_once_witness :
    scopeOk (fun p => p)
        [Op.ctor_from_raw 1 7, Op.ctor_from_raw 2 9, Op.operator_assign 2 1]
        World.empty [] = true ∧
      ((destroyed (scope_exit (run
        [Op.ctor_from_raw 1 7, Op.ctor_from_raw 2 9, Op.operator_assign 2 1]
        World.empty))).map (fun p => p)).count 9 = 1 :=
  ⟨by decide,
   (C12_exactly_once (fun p => p)
      [Op.ctor_from_raw 1 7, Op.ctor_from_raw 2 9, Op.operator_assign 2 1]
      (by decide)).2.2.2.2.1 9 (by decide) (by decide)⟩


end cm
